import Mathlib

/-!
# Trance `Director`: visual selection, frame update, image tiling, text layout

A shallow embedding of `src/director.cpp`.

* `uint32_t` values are natural numbers reduced modulo `2^32` after every
  arithmetic step (`u32`).
* `float` values are rationals. In `render_image` and `render_texture`, where the
  number of tiles depends on it, every `float` operation is followed by rounding
  to binary32 (`f32`). `off3d` and `render_text` are kept in exact arithmetic,
  as the properties stated of them take it. A division by zero is outside the
  model, and the theorem on text centring takes the viewport sides positive.
* `random(n)` lives in `util.h`; the value a call returns is an argument of the
  function that makes the call.
* Calls into OpenGL are recorded as a list of calls in program order.
-/

namespace Trance

/-! ## Machine numbers -/

/-- Reduction of a natural number to the range of `uint32_t`. -/
def u32 (n : Nat) : Nat := n % 4294967296

/-- Rounding of a rational to the nearest integer, a tie going to the even one. -/
def round_even (t : ℚ) : ℤ :=
  if t - ⌊t⌋ < 1 / 2 then ⌊t⌋
  else if 1 / 2 < t - ⌊t⌋ then ⌊t⌋ + 1
  else if ⌊t⌋ % 2 = 0 then ⌊t⌋ else ⌊t⌋ + 1

/-- Rounding of a rational to the nearest `float`, a binary32 number with 24
significant bits, a tie going to the even significand: with `2^e <= |q| < 2^(e+1)`
the result is a multiple of `2^(e-23)`. The exponent is not bounded: overflow to
infinity and the subnormal range are not modelled. -/
def f32 (q : ℚ) : ℚ :=
  if q = 0 then 0
  else (round_even (q / (2 : ℚ) ^ (Int.log 2 |q| - 23)) : ℚ) * (2 : ℚ) ^ (Int.log 2 |q| - 23)

/-! ## Program configuration -/

/-- The values of `trance_pb::Program_VisualType` that `change_visual` compares
against, and one more standing for every other value of the enum's integer type. -/
inductive VisualType
  | ACCELERATE
  | SLOW_FLASH
  | SUB_TEXT
  | FLASH_TEXT
  | PARALLEL
  | SUPER_PARALLEL
  | ANIMATION
  | SUPER_FAST
  | UNRECOGNISED
  deriving DecidableEq

/-- One element of `Program::visual_type()`. -/
structure VisualTypeEntry where
  type : VisualType
  random_weight : Nat
  deriving DecidableEq

/-- The fields of `trance_pb::Program` read by `change_visual` and `render_image`. -/
structure Program where
  visual_type : List VisualTypeEntry
  global_fps : Nat
  zoom_intensity : ℚ
  deriving DecidableEq

/-! ## Weighted draw (`change_visual`, second half) -/

/-- First loop of the draw: `total += type.random_weight()` over the entries, in
`uint32_t`, starting from the accumulator `total`. -/
def sum_weights : List VisualTypeEntry → Nat → Nat
  | [], total => total
  | e :: es, total => sum_weights es (u32 (total + e.random_weight))

/-- Second loop of the draw: `if (r < (total += type.random_weight())) { t = type.type(); break; }`.
The result is the position of the entry at which the loop breaks together with
the value assigned to `t`; `none` when the loop runs off the end and `t` is
never assigned. `idx` is the position of the head of the list. -/
def scan_weights (r : Nat) : List VisualTypeEntry → Nat → Nat → Option (Nat × VisualType)
  | [], _, _ => none
  | e :: es, total, idx =>
    if r < u32 (total + e.random_weight) then some (idx, e.type)
    else scan_weights r es (u32 (total + e.random_weight)) (idx + 1)

/-- The value of the accumulator `total` of the scan after it has added the weights of
the first `k` entries, in `uint32_t`. -/
def running_total (es : List VisualTypeEntry) (k : Nat) : Nat :=
  sum_weights (es.take k) 0

/-- Mathematical sum of the weights of the first `k` entries. -/
def cumulative_weight (es : List VisualTypeEntry) (k : Nat) : Nat :=
  ((es.take k).map VisualTypeEntry.random_weight).sum

/-- Mathematical sum of all weights. -/
def total_weight (es : List VisualTypeEntry) : Nat :=
  (es.map VisualTypeEntry.random_weight).sum

/-! ## Visuals and the director's state -/

/-- The operations of a visual's cycler (`visual_cyclers.h`) used by the director,
and the cycler a freshly constructed visual of each type starts with. -/
structure CyclerOps (C : Type) where
  advance : C → C
  complete : C → Bool
  length : C → Nat
  make : VisualType → C

/-- A `Visual` object: which of the eight classes it is, and its cycler. -/
structure Visual (C : Type) where
  type : VisualType
  cycler : C

/-- The fields of `trance_pb::System` read by `off3d`. -/
structure System where
  oculus_text_depth : ℚ
  oculus_image_depth : ℚ

/-- The members of `Director` that the modelled functions read or write.
`_visual` and `_old_visual` are the two owning pointers (`none` is `nullptr`). -/
structure Director (C : Type) where
  _visual : Option (Visual C)
  _old_visual : Option (Visual C)
  _program : Program
  _system : System
  _width : Nat
  _height : Nat
  _realtime : Bool
  oculus_enabled : Bool
  oculus_started : Bool
  oculus_rendering_right : Bool

/-- The fields of `ovrSessionStatus` read by `update`. -/
structure SessionStatus where
  ShouldQuit : Bool
  DisplayLost : Bool
  ShouldRecenter : Bool
  HmdPresent : Bool
  IsVisible : Bool
  deriving DecidableEq

/-! ## `Director::change_visual` -/

/-- The argument of the gate's call to `random`: `(2 * fps * length) / 2048` in `uint32_t`. -/
def gate_threshold (fps length : Nat) : Nat :=
  u32 (u32 (2 * fps) * length) / 2048

/-- The condition `length && random((2 * fps * length) / 2048) >= 120` of the early
return, `d` being the value returned by `random`. When `length` is zero the call
is not made and `d` is not looked at. -/
def gate_skips (length d : Nat) : Bool :=
  length != 0 && decide (120 ≤ d)

/-- The chain of eight `if (t == ...) _visual.reset(new ...)` statements applied to
the pointer `v`. -/
def reset_visual {C : Type} (ops : CyclerOps C) (t : VisualType) (v : Option (Visual C)) :
    Option (Visual C) :=
  let v := if t = VisualType.ACCELERATE then some ⟨VisualType.ACCELERATE, ops.make VisualType.ACCELERATE⟩ else v
  let v := if t = VisualType.SLOW_FLASH then some ⟨VisualType.SLOW_FLASH, ops.make VisualType.SLOW_FLASH⟩ else v
  let v := if t = VisualType.SUB_TEXT then some ⟨VisualType.SUB_TEXT, ops.make VisualType.SUB_TEXT⟩ else v
  let v := if t = VisualType.FLASH_TEXT then some ⟨VisualType.FLASH_TEXT, ops.make VisualType.FLASH_TEXT⟩ else v
  let v := if t = VisualType.PARALLEL then some ⟨VisualType.PARALLEL, ops.make VisualType.PARALLEL⟩ else v
  let v := if t = VisualType.SUPER_PARALLEL then some ⟨VisualType.SUPER_PARALLEL, ops.make VisualType.SUPER_PARALLEL⟩ else v
  let v := if t = VisualType.ANIMATION then some ⟨VisualType.ANIMATION, ops.make VisualType.ANIMATION⟩ else v
  let v := if t = VisualType.SUPER_FAST then some ⟨VisualType.SUPER_FAST, ops.make VisualType.SUPER_FAST⟩ else v
  v

/-- The statement `_visual.swap(_old_visual)`. -/
def swap_visuals {C : Type} (dir : Director C) : Director C :=
  { dir with _visual := dir._old_visual, _old_visual := dir._visual }

/-- `Director::change_visual(length)`. `d` is the value returned by the gate's call
to `random` and `r` the value returned by `random(total)`. The result is `none`
when the scan leaves `t` unassigned, since `t` is then read uninitialised. -/
def change_visual {C : Type} (ops : CyclerOps C) (dir : Director C) (length d r : Nat) :
    Option (Director C) :=
  if gate_skips length d then some dir
  else
    match scan_weights r dir._program.visual_type 0 0 with
    | none => none
    | some (_, t) =>
      some { swap_visuals dir with _visual := reset_visual ops t (swap_visuals dir)._visual }

/-- The state after the constructor's member initialisers and VR setup, before its
call `change_visual(0)`: both visual pointers are null. `enabled` is the value
the constructor stored in `_oculus.enabled`. -/
def initial_director (C : Type) (program : Program) (system : System) (width height : Nat)
    (realtime enabled : Bool) : Director C :=
  { _visual := none, _old_visual := none, _program := program, _system := system,
    _width := width, _height := height, _realtime := realtime,
    oculus_enabled := enabled, oculus_started := false, oculus_rendering_right := false }

/-- The constructor `Director::Director` as far as the visual pointers go: it ends
with `change_visual(0)`. -/
def construct {C : Type} (ops : CyclerOps C) (program : Program) (system : System)
    (width height : Nat) (realtime enabled : Bool) (r : Nat) : Option (Director C) :=
  change_visual ops (initial_director C program system width height realtime enabled) 0 0 r

/-! ## `Director::update` -/

/-- Lines 185 to 192 of `update`: drop the retiring visual, advance the active
cycler, and call `change_visual` when the cycler is complete. `none` when
`_visual` is null (it is dereferenced) or `change_visual` is undefined. -/
def update_visual {C : Type} (ops : CyclerOps C) (dir : Director C) (d r : Nat) :
    Option (Director C) :=
  match dir._visual with
  | none => none
  | some v =>
    let v1 : Visual C := { v with cycler := ops.advance v.cycler }
    let dir1 : Director C := { dir with _old_visual := none, _visual := some v1 }
    if ops.complete v1.cycler then change_visual ops dir1 (ops.length v1.cycler) d r
    else some dir1

/-- Lines 194 to 217 of `update`: the session status poll and the returned flag.
Messages written to `std::cerr` and the recentre request are not recorded. -/
def update_status {C : Type} (dir : Director C) (status : SessionStatus) : Director C × Bool :=
  let to_oculus := dir._realtime && dir.oculus_enabled
  if to_oculus then
    if status.ShouldQuit then (dir, false)
    else ({ dir with oculus_started := status.HmdPresent && !status.DisplayLost }, true)
  else (dir, true)

/-- `Director::update()`: the state it leaves and the value it returns. -/
def update {C : Type} (ops : CyclerOps C) (dir : Director C) (d r : Nat)
    (status : SessionStatus) : Option (Director C × Bool) :=
  match update_visual ops dir d r with
  | none => none
  | some dir1 => some (update_status dir1 status)

/-- The inputs of one call of `update`: the two values `random` would return and
the polled session status. -/
structure Tick where
  d : Nat
  r : Nat
  status : SessionStatus

/-- A sequence of calls of `update`, whatever each returns. -/
def run_updates {C : Type} (ops : CyclerOps C) : Director C → List Tick → Option (Director C)
  | dir, [] => some dir
  | dir, tk :: tks =>
    match update ops dir tk.d tk.r tk.status with
    | none => none
    | some (dir1, _) => run_updates ops dir1 tks

/-! ## OpenGL calls -/

/-- Capabilities passed to `glEnable` and `glDisable`. -/
inductive GLCap
  | GL_BLEND
  | GL_TEXTURE_2D
  | GL_DEPTH_TEST
  | GL_CULL_FACE
  deriving DecidableEq

/-- The shader programs used by the drawing primitives. -/
inductive GLProgram
  | _image_program
  | _text_program
  deriving DecidableEq

/-- Names of the uniforms set by `render_image`, `render_texture` and `render_text`. -/
inductive Uniform
  | alpha
  | zoom
  | min_coord
  | max_coord
  | flip
  | colour
  deriving DecidableEq

/-- Names of the vertex attributes. -/
inductive Attrib
  | position
  | texcoord
  deriving DecidableEq

/-- Arguments of `glBindBuffer(GL_ARRAY_BUFFER, _)`. -/
inductive GLBuffer
  | _quad_buffer
  | _tex_buffer
  | zero
  deriving DecidableEq

/-- Primitive modes passed to `glDrawArrays`. -/
inductive GLMode
  | GL_TRIANGLES
  | GL_QUADS
  deriving DecidableEq

/-- A vertex of the text quads: position and texture coordinate. -/
structure Vertex where
  x : ℚ
  y : ℚ
  u : ℚ
  v : ℚ
  deriving DecidableEq

/-- Where the data of a `glVertexAttribPointer` call comes from: the bound buffer,
or client memory holding the text vertices, read from a byte offset. -/
inductive AttribSource
  | bound_buffer
  | client (data : List Vertex) (byte_offset : Nat)
  deriving DecidableEq

/-- One call into OpenGL (or `sf::Texture::bind`), with the arguments that vary. -/
inductive GLCall
  | glEnable (cap : GLCap)
  | glDisable (cap : GLCap)
  | glBlendFunc_SRC_ALPHA_ONE_MINUS_SRC_ALPHA
  | glUseProgram (program : GLProgram)
  | glActiveTexture_TEXTURE0
  | glBindTexture (texture : Nat)
  | bind_font_texture
  | glUniform1f (program : GLProgram) (name : Uniform) (v0 : ℚ)
  | glUniform2f (program : GLProgram) (name : Uniform) (v0 v1 : ℚ)
  | glUniform4f (program : GLProgram) (name : Uniform) (v0 v1 v2 v3 : ℚ)
  | glEnableVertexAttribArray (program : GLProgram) (name : Attrib)
  | glDisableVertexAttribArray (program : GLProgram) (name : Attrib)
  | glBindBuffer (buffer : GLBuffer)
  | glVertexAttribPointer (program : GLProgram) (name : Attrib) (size : Nat) (stride : Nat)
      (source : AttribSource)
  | glDrawArrays (mode : GLMode) (first count : Nat)
  deriving DecidableEq

/-! ## `Director::off3d` -/

/-- `Director::off3d(multiplier, text)`: the pair `{x, 0}`. -/
def off3d {C : Type} (dir : Director C) (multiplier : ℚ) (text : Bool) : ℚ × ℚ :=
  let x : ℚ :=
    if !dir.oculus_enabled || decide (multiplier = 0) then 0
    else if !dir.oculus_rendering_right then (dir._width : ℚ) / (8 * multiplier)
    else (dir._width : ℚ) / -(8 * multiplier)
  let x := x * (if text then dir._system.oculus_text_depth else dir._system.oculus_image_depth)
  (x, 0)

/-! ## `Director::render_texture` and `Director::render_image` -/

/-- The arguments of one call of `render_texture`. -/
structure TextureCall where
  l : ℚ
  t : ℚ
  r : ℚ
  b : ℚ
  flip_h : Bool
  flip_v : Bool
  deriving DecidableEq

/-- A rectangle passed to `render_texture` contains the point `(px, py)`. -/
def covers (c : TextureCall) (px py : ℚ) : Prop :=
  c.l ≤ px ∧ px ≤ c.r ∧ c.t ≤ py ∧ py ≤ c.b

/-- `Director::render_texture(l, t, r, b, flip_h, flip_v)`. -/
def render_texture {C : Type} (dir : Director C) (c : TextureCall) : List GLCall :=
  [ GLCall.glUniform2f GLProgram._image_program Uniform.min_coord
      (f32 (c.l / f32 dir._width)) (f32 (c.t / f32 dir._height)),
    GLCall.glUniform2f GLProgram._image_program Uniform.max_coord
      (f32 (c.r / f32 dir._width)) (f32 (c.b / f32 dir._height)),
    GLCall.glUniform2f GLProgram._image_program Uniform.flip
      (if c.flip_h then 1 else 0) (if c.flip_v then 1 else 0),
    GLCall.glDrawArrays GLMode.GL_TRIANGLES 0 6 ]

/-- An `Image`: texture handle and pixel dimensions. -/
structure Image where
  texture : Nat
  width : Nat
  height : Nat
  deriving DecidableEq

/-- The body of the inner loop of `render_image` for the indices `i`, `j`: the calls
of `render_texture` it makes, in order. `x`, `y` are the scaled tile sizes;
`_width / 2` and `_height / 2` are unsigned integer quotients. -/
def tile_body {C : Type} (dir : Director C) (offx3d x y : ℚ) (i j : Nat) : List TextureCall :=
  let x1 : ℚ := f32 (f32 (offx3d + f32 ((dir._width / 2 : Nat) : ℚ)) - f32 (x / 2))
  let x2 : ℚ := f32 (f32 (offx3d + f32 ((dir._width / 2 : Nat) : ℚ)) + f32 (x / 2))
  let y1 : ℚ := f32 (f32 ((dir._height / 2 : Nat) : ℚ) - f32 (y / 2))
  let y2 : ℚ := f32 (f32 ((dir._height / 2 : Nat) : ℚ) + f32 (y / 2))
  let ix : ℚ := f32 (f32 (i : ℚ) * x)
  let jy : ℚ := f32 (f32 (j : ℚ) * y)
  [⟨f32 (x1 - ix), f32 (y1 - jy), f32 (x2 - ix), f32 (y2 - jy), i % 2 != 0, j % 2 != 0⟩]
  ++ (if i ≠ 0 then
        [⟨f32 (x1 + ix), f32 (y1 - jy), f32 (x2 + ix), f32 (y2 - jy), i % 2 != 0, j % 2 != 0⟩]
      else [])
  ++ (if j ≠ 0 then
        [⟨f32 (x1 - ix), f32 (y1 + jy), f32 (x2 - ix), f32 (y2 + jy), i % 2 != 0, j % 2 != 0⟩]
      else [])
  ++ (if i ≠ 0 ∧ j ≠ 0 then
        [⟨f32 (x1 + ix), f32 (y1 + jy), f32 (x2 + ix), f32 (y2 + jy), i % 2 != 0, j % 2 != 0⟩]
      else [])

/-- The centred rectangle `offx3d + _width / 2 ± x / 2`, `_height / 2 ± y / 2` of
`render_image`, as `(x1, y1, x2, y2)`. -/
def centred_rect {C : Type} (dir : Director C) (offx3d x y : ℚ) : ℚ × ℚ × ℚ × ℚ :=
  (f32 (f32 (offx3d + f32 ((dir._width / 2 : Nat) : ℚ)) - f32 (x / 2)),
   f32 (f32 ((dir._height / 2 : Nat) : ℚ) - f32 (y / 2)),
   f32 (f32 (offx3d + f32 ((dir._width / 2 : Nat) : ℚ)) + f32 (x / 2)),
   f32 (f32 ((dir._height / 2 : Nat) : ℚ) + f32 (y / 2)))

/-- A coordinate `a` moved by `k` tile sizes `size`, towards larger values when
`forward` is set and towards smaller ones otherwise, as the code computes it. -/
def moved (a : ℚ) (k : Nat) (size : ℚ) (forward : Bool) : ℚ :=
  if forward then f32 (a + f32 (f32 (k : ℚ) * size)) else f32 (a - f32 (f32 (k : ℚ) * size))

/-- The tile lying `i` tile sizes left of the centred rectangle (right of it when
`right` is set) and `j` tile sizes above it (below it when `below` is set), with
the given flips. -/
def tile_at {C : Type} (dir : Director C) (offx3d x y : ℚ) (i j : Nat) (right below : Bool)
    (flip_h flip_v : Bool) : TextureCall :=
  { l := moved (centred_rect dir offx3d x y).1 i x right,
    t := moved (centred_rect dir offx3d x y).2.1 j y below,
    r := moved (centred_rect dir offx3d x y).2.2.1 i x right,
    b := moved (centred_rect dir offx3d x y).2.2.2 j y below,
    flip_h := flip_h, flip_v := flip_v }

/-- A loop `for (int k = 0; test(k); ++k) body(k)` from index `k` on, collecting what
the bodies produce; `none` when the fuel runs out before the test fails, or a
body does not finish. -/
def for_loop {α : Type} (test : Nat → Bool) (body : Nat → Option (List α)) :
    Nat → Nat → Option (List α)
  | 0, _ => none
  | fuel + 1, k =>
    if test k then
      match body k with
      | none => none
      | some out =>
        match for_loop test body fuel (k + 1) with
        | none => none
        | some rest => some (out ++ rest)
    else some []

/-- The loop conditions `_width / 2 - i * x + x / 2 >= 0` and
`_height / 2 - j * y + y / 2 >= 0`: `half` is the unsigned integer quotient
`_width / 2` (or `_height / 2`), `size` the tile size and `k` the index. -/
def loop_test (half : Nat) (size : ℚ) (k : Nat) : Bool :=
  decide (0 ≤ f32 (f32 (f32 (half : ℚ) - f32 (f32 (k : ℚ) * size)) + f32 (size / 2)))

/-- The inner loop `for (int j = 0; _height / 2 - j * y + y / 2 >= 0; ++j)` of
`render_image` for the outer index `i`. -/
def tile_loop_j {C : Type} (dir : Director C) (offx3d x y : ℚ) (i : Nat) (fuel : Nat) :
    Option (List TextureCall) :=
  for_loop (loop_test (dir._height / 2) y) (fun j => some (tile_body dir offx3d x y i j)) fuel 0

/-- The outer loop `for (int i = 0; _width / 2 - i * x + x / 2 >= 0; ++i)` of
`render_image`; every loop gets the same fuel. -/
def tile_loop_i {C : Type} (dir : Director C) (offx3d x y : ℚ) (fuel : Nat) :
    Option (List TextureCall) :=
  for_loop (loop_test (dir._width / 2) x) (fun i => tile_loop_j dir offx3d x y i fuel) fuel 0

/-- The scale factor computed by `render_image`. -/
def image_scale {C : Type} (dir : Director C) (image : Image) : ℚ :=
  let scale : ℚ := min (f32 (f32 (dir._height : ℚ) / f32 (image.height : ℚ)))
    (f32 (f32 (dir._width : ℚ) / f32 (image.width : ℚ)))
  if dir.oculus_enabled then f32 (scale * (1 / 2)) else scale

/-- The calls of `render_texture` made by `render_image`, in order. `fuel` bounds the
number of tests of each loop condition. -/
def render_image_tiles {C : Type} (dir : Director C) (image : Image) (multiplier : ℚ)
    (fuel : Nat) : Option (List TextureCall) :=
  let offx3d := (off3d dir multiplier false).1
  let x : ℚ := f32 (f32 (image.width : ℚ) * image_scale dir image)
  let y : ℚ := f32 (f32 (image.height : ℚ) * image_scale dir image)
  tile_loop_i dir offx3d x y fuel

/-- `Director::render_image(image, alpha, multiplier, zoom)` as the list of OpenGL
calls it makes. -/
def render_image {C : Type} (dir : Director C) (image : Image)
    (alpha multiplier zoom : ℚ) (fuel : Nat) : Option (List GLCall) :=
  match render_image_tiles dir image multiplier fuel with
  | none => none
  | some tiles =>
    some (
      [ GLCall.glEnable GLCap.GL_BLEND,
        GLCall.glDisable GLCap.GL_TEXTURE_2D,
        GLCall.glBlendFunc_SRC_ALPHA_ONE_MINUS_SRC_ALPHA,
        GLCall.glDisable GLCap.GL_DEPTH_TEST,
        GLCall.glDisable GLCap.GL_CULL_FACE,
        GLCall.glUseProgram GLProgram._image_program,
        GLCall.glActiveTexture_TEXTURE0,
        GLCall.glBindTexture image.texture,
        GLCall.glUniform1f GLProgram._image_program Uniform.alpha alpha,
        GLCall.glUniform1f GLProgram._image_program Uniform.zoom
          (f32 (dir._program.zoom_intensity * zoom)),
        GLCall.glEnableVertexAttribArray GLProgram._image_program Attrib.position,
        GLCall.glBindBuffer GLBuffer._quad_buffer,
        GLCall.glVertexAttribPointer GLProgram._image_program Attrib.position 2 0
          AttribSource.bound_buffer,
        GLCall.glEnableVertexAttribArray GLProgram._image_program Attrib.texcoord,
        GLCall.glBindBuffer GLBuffer._tex_buffer,
        GLCall.glVertexAttribPointer GLProgram._image_program Attrib.texcoord 2 0
          AttribSource.bound_buffer ]
      ++ (tiles.map (render_texture dir)).flatten
      ++ [ GLCall.glDisableVertexAttribArray GLProgram._image_program Attrib.position,
           GLCall.glDisableVertexAttribArray GLProgram._image_program Attrib.texcoord,
           GLCall.glBindBuffer GLBuffer.zero ])

/-! ## `Director::render_text` -/

/-- An `sf::Glyph`: advance, bounding rectangle, and rectangle in the font texture. -/
structure Glyph where
  advance : ℚ
  bounds_left : ℚ
  bounds_top : ℚ
  bounds_width : ℚ
  bounds_height : ℚ
  textureRect_left : Int
  textureRect_top : Int
  textureRect_width : Int
  textureRect_height : Int

/-- What `render_text` asks of a `Font` at its character size: glyphs, line spacing,
kerning, and the size of the atlas texture. -/
structure Font where
  getGlyph : Nat → Glyph
  getLineSpacing : ℚ
  getKerning : Nat → Nat → ℚ
  texture_size_x : Nat
  texture_size_y : Nat

/-- An `sf::Color`. -/
structure Colour where
  r : Nat
  g : Nat
  b : Nat
  a : Nat
  deriving DecidableEq

/-- The local variables of the layout loop of `render_text`, and the vertex buffer. -/
structure Layout where
  x : ℚ
  y : ℚ
  xmin : ℚ
  ymin : ℚ
  xmax : ℚ
  ymax : ℚ
  prev : Nat
  vertices : List Vertex

/-- The state of the layout loop before its first iteration. -/
def layout_start : Layout :=
  { x := 0, y := 0, xmin := 256, ymin := 256, xmax := -256, ymax := -256, prev := 0,
    vertices := [] }

/-- One iteration of the layout loop for the character code `current`. -/
def layout_step {C : Type} (dir : Director C) (font : Font) (hspace vspace : ℚ)
    (s : Layout) (current : Nat) : Layout :=
  let s : Layout := { s with x := s.x + font.getKerning s.prev current, prev := current }
  if current = 32 then { s with x := s.x + hspace }
  else if current = 9 then { s with x := s.x + hspace * 4 }
  else if current = 10 then { s with y := s.y + vspace, x := 0 }
  else if current = 11 then { s with y := s.y + vspace * 4 }
  else
    let g := font.getGlyph current
    let x1 : ℚ := (s.x + g.bounds_left) / dir._width
    let y1 : ℚ := (s.y + g.bounds_top) / dir._height
    let x2 : ℚ := (s.x + g.bounds_left + g.bounds_width) / dir._width
    let y2 : ℚ := (s.y + g.bounds_top + g.bounds_height) / dir._height
    let u1 : ℚ := (g.textureRect_left : ℚ) / font.texture_size_x
    let v1 : ℚ := (g.textureRect_top : ℚ) / font.texture_size_y
    let u2 : ℚ := ((g.textureRect_left + g.textureRect_width : Int) : ℚ) / font.texture_size_x
    let v2 : ℚ := ((g.textureRect_top + g.textureRect_height : Int) : ℚ) / font.texture_size_y
    { s with
      vertices := s.vertices ++ [⟨x1, y1, u1, v1⟩, ⟨x2, y1, u2, v1⟩, ⟨x2, y2, u2, v2⟩, ⟨x1, y2, u1, v2⟩],
      xmin := min s.xmin (min x1 x2),
      xmax := max s.xmax (max x1 x2),
      ymin := min s.ymin (min y1 y2),
      ymax := max s.ymax (max y1 y2),
      x := s.x + g.advance }

/-- The layout loop over the whole text. -/
def layout_text {C : Type} (dir : Director C) (font : Font) (text : List Nat) : Layout :=
  text.foldl (layout_step dir font (font.getGlyph 32).advance font.getLineSpacing) layout_start

/-- The body of the loop `for (auto& v : vertices)` after the layout. -/
def place_vertex {C : Type} (dir : Director C) (s : Layout) (offset : ℚ × ℚ) (scale : ℚ)
    (v : Vertex) : Vertex :=
  { v with
    x := (v.x - (s.xmin + (s.xmax - s.xmin) / 2)) * scale + offset.1 / dir._width,
    y := (v.y - (s.ymin + (s.ymax - s.ymin) / 2)) * scale + offset.2 / dir._height }

/-- What a call of `render_text` leaves behind: the content of the function's static
vertex buffer and the OpenGL calls made. -/
structure TextResult where
  vertices : List Vertex
  calls : List GLCall

/-- `Director::render_text(text, font, colour, offset, scale)`. `text` is the
sequence of values `uint32_t current = text[i]`; `static_vertices` is the content
of the static buffer `vertices` when the function is entered. -/
def render_text {C : Type} (dir : Director C) (static_vertices : List Vertex)
    (text : List Nat) (font : Font) (colour : Colour) (offset : ℚ × ℚ) (scale : ℚ) :
    TextResult :=
  if text.isEmpty then { vertices := static_vertices, calls := [] }
  else
    let s := layout_text dir font text
    let vertices := s.vertices.map (place_vertex dir s offset scale)
    { vertices := vertices,
      calls :=
        [ GLCall.glEnable GLCap.GL_BLEND,
          GLCall.glDisable GLCap.GL_TEXTURE_2D,
          GLCall.glBlendFunc_SRC_ALPHA_ONE_MINUS_SRC_ALPHA,
          GLCall.glDisable GLCap.GL_DEPTH_TEST,
          GLCall.glDisable GLCap.GL_CULL_FACE,
          GLCall.glUseProgram GLProgram._text_program,
          GLCall.glActiveTexture_TEXTURE0,
          GLCall.bind_font_texture,
          GLCall.glUniform4f GLProgram._text_program Uniform.colour
            ((colour.r : ℚ) / 255) ((colour.g : ℚ) / 255) ((colour.b : ℚ) / 255)
            ((colour.a : ℚ) / 255),
          GLCall.glEnableVertexAttribArray GLProgram._image_program Attrib.position,
          GLCall.glVertexAttribPointer GLProgram._image_program Attrib.position 2 16
            (AttribSource.client vertices 0),
          GLCall.glEnableVertexAttribArray GLProgram._image_program Attrib.texcoord,
          GLCall.glVertexAttribPointer GLProgram._image_program Attrib.texcoord 2 16
            (AttribSource.client vertices 8),
          GLCall.glDrawArrays GLMode.GL_QUADS 0 vertices.length ] }

/-- The number of vertices a list of OpenGL calls submits for drawing. -/
def vertices_drawn : List GLCall → Nat
  | [] => 0
  | GLCall.glDrawArrays _ _ count :: cs => count + vertices_drawn cs
  | _ :: cs => vertices_drawn cs

/-! ## Notions used to state the text properties -/

/-- The character code is none of space, tab, newline and vertical tab, the four
cases of the `switch` in `render_text`. -/
def draws_quad (c : Nat) : Bool :=
  !(c == 32 || c == 9 || c == 10 || c == 11)

/-- The value `m` is the least value of the coordinate `f` among the vertices. -/
def is_min (f : Vertex → ℚ) (vs : List Vertex) (m : ℚ) : Prop :=
  (∃ v ∈ vs, f v = m) ∧ ∀ v ∈ vs, m ≤ f v

/-- The value `m` is the greatest value of the coordinate `f` among the vertices. -/
def is_max (f : Vertex → ℚ) (vs : List Vertex) (m : ℚ) : Prop :=
  (∃ v ∈ vs, f v = m) ∧ ∀ v ∈ vs, f v ≤ m

/-- The bounding box of the vertices is centred at the origin: the least `x` is the
negation of the greatest `x`, and the same for `y`. -/
def centred_at_origin (vs : List Vertex) : Prop :=
  ∃ hx hy, is_min Vertex.x vs (-hx) ∧ is_max Vertex.x vs hx ∧
    is_min Vertex.y vs (-hy) ∧ is_max Vertex.y vs hy

/-- What a running minimum that started at 256 knows of the vertices seen so far: it
is at most 256, below every vertex, and either still 256 or the coordinate of
some vertex. -/
def tracks_min (f : Vertex → ℚ) (vs : List Vertex) (m : ℚ) : Prop :=
  m ≤ 256 ∧ (∀ v ∈ vs, m ≤ f v) ∧ (m = 256 ∨ ∃ v ∈ vs, f v = m)

/-- What a running maximum that started at -256 knows of the vertices seen so far. -/
def tracks_max (f : Vertex → ℚ) (vs : List Vertex) (m : ℚ) : Prop :=
  -256 ≤ m ∧ (∀ v ∈ vs, f v ≤ m) ∧ (m = -256 ∨ ∃ v ∈ vs, f v = m)

/-- The four running extrema of the layout loop track the vertices emitted so far. -/
def layout_bounds (s : Layout) : Prop :=
  tracks_min Vertex.x s.vertices s.xmin ∧ tracks_max Vertex.x s.vertices s.xmax ∧
  tracks_min Vertex.y s.vertices s.ymin ∧ tracks_max Vertex.y s.vertices s.ymax

/-! ## Example inputs -/

/-- The entries of the overflow example: the weights sum to `2^32 + 6`. -/
def overflow_entries : List VisualTypeEntry :=
  [⟨VisualType.ACCELERATE, 3⟩, ⟨VisualType.SLOW_FLASH, 4294967294⟩, ⟨VisualType.SUB_TEXT, 5⟩]

/-- An example cycler: a counter that is complete from 2 on, of length 2048. -/
def example_ops : CyclerOps Nat :=
  { advance := fun c => c + 1, complete := fun c => decide (2 ≤ c), length := fun _ => 2048,
    make := fun _ => 0 }

/-- An example program: two visual types with weights 3 and 2, at 60 frames per second. -/
def example_program : Program :=
  { visual_type := [⟨VisualType.ACCELERATE, 3⟩, ⟨VisualType.SLOW_FLASH, 2⟩], global_fps := 60,
    zoom_intensity := 1 }

/-- A program whose two weights are `2^31` each: they sum to `2^32`, which is zero
in `uint32_t`. -/
def wrap_program : Program :=
  { visual_type := [⟨VisualType.ACCELERATE, 2147483648⟩, ⟨VisualType.SLOW_FLASH, 2147483648⟩],
    global_fps := 60, zoom_intensity := 1 }

/-- An example director in VR mode whose active visual completes at the next update. -/
def example_director : Director Nat :=
  { _visual := some ⟨VisualType.ACCELERATE, 1⟩, _old_visual := none,
    _program := example_program, _system := ⟨1, 1⟩, _width := 512, _height := 512,
    _realtime := true, oculus_enabled := true, oculus_started := false,
    oculus_rendering_right := false }

/-- A session status that asks to quit. -/
def quit_status : SessionStatus :=
  { ShouldQuit := true, DisplayLost := false, ShouldRecenter := false, HmdPresent := true,
    IsVisible := true }

/-- An example director drawing to a window of the given size, VR off. -/
def window_director (width height : Nat) : Director Nat :=
  { _visual := some ⟨VisualType.ACCELERATE, 0⟩, _old_visual := none,
    _program := example_program, _system := ⟨1, 1⟩, _width := width, _height := height,
    _realtime := true, oculus_enabled := false, oculus_started := false,
    oculus_rendering_right := false }


/-- An example font: every glyph advances 9 pixels and is 8 by 10 pixels, starting one
pixel right of the pen and ten pixels above the baseline; no kerning. -/
def example_font : Font :=
  { getGlyph := fun _ => ⟨9, 1, -10, 8, 10, 0, 0, 8, 10⟩, getLineSpacing := 12,
    getKerning := fun _ _ => 0, texture_size_x := 128, texture_size_y := 128 }

/-- The example font with one kerning pair: full stop followed by space, one pixel
tighter. -/
def kerning_font : Font :=
  { example_font with getKerning := fun a b => if a = 46 ∧ b = 32 then -1 else 0 }

/-- A font whose glyphs lie 30000 pixels right of the pen and are 1000 pixels wide
and high. -/
def far_font : Font :=
  { example_font with getGlyph := fun _ => ⟨9, 30000, 0, 1000, 1000, 0, 0, 8, 10⟩ }

/-! ## Weighted draw: facts about the two loops -/

theorem u32_of_lt {n : Nat} (h : n < 4294967296) : u32 n = n := by
  unfold u32
  exact Nat.mod_eq_of_lt h

theorem total_weight_cons (e : VisualTypeEntry) (es : List VisualTypeEntry) :
    total_weight (e :: es) = e.random_weight + total_weight es := by
  simp [total_weight]

theorem cumulative_weight_zero (es : List VisualTypeEntry) : cumulative_weight es 0 = 0 := by
  simp [cumulative_weight]

theorem cumulative_weight_cons_succ (e : VisualTypeEntry) (es : List VisualTypeEntry) (k : Nat) :
    cumulative_weight (e :: es) (k + 1) = e.random_weight + cumulative_weight es k := by
  simp [cumulative_weight]

theorem cumulative_weight_nil (k : Nat) : cumulative_weight [] k = 0 := by
  simp [cumulative_weight]

/-- Adding one more entry to a prefix adds that entry's weight. -/
theorem cumulative_weight_succ (es : List VisualTypeEntry) (k : Nat) (e : VisualTypeEntry)
    (hk : es[k]? = some e) :
    cumulative_weight es (k + 1) = cumulative_weight es k + e.random_weight := by
  induction es generalizing k with
  | nil => simp at hk
  | cons a as ih =>
    cases k with
    | zero =>
      simp at hk
      subst hk
      simp [cumulative_weight]
    | succ k =>
      simp at hk
      rw [cumulative_weight_cons_succ, cumulative_weight_cons_succ, ih k hk]
      omega

theorem cumulative_weight_le_succ (es : List VisualTypeEntry) (k : Nat) :
    cumulative_weight es k ≤ cumulative_weight es (k + 1) := by
  induction es generalizing k with
  | nil => simp [cumulative_weight_nil]
  | cons a as ih =>
    cases k with
    | zero => simp [cumulative_weight_zero]
    | succ k =>
      rw [cumulative_weight_cons_succ, cumulative_weight_cons_succ]
      exact Nat.add_le_add_left (ih k) _

theorem cumulative_weight_mono (es : List VisualTypeEntry) {j k : Nat} (h : j ≤ k) :
    cumulative_weight es j ≤ cumulative_weight es k := by
  induction h with
  | refl => exact Nat.le_refl _
  | step _ ih => exact Nat.le_trans ih (cumulative_weight_le_succ es _)

theorem cumulative_weight_le_total (es : List VisualTypeEntry) (k : Nat) :
    cumulative_weight es k ≤ total_weight es := by
  induction es generalizing k with
  | nil => simp [cumulative_weight_nil]
  | cons a as ih =>
    cases k with
    | zero => simp [cumulative_weight_zero]
    | succ k =>
      rw [cumulative_weight_cons_succ, total_weight_cons]
      exact Nat.add_le_add_left (ih k) _

/-- Without wrap-around the first loop computes the mathematical sum. -/
theorem sum_weights_eq (es : List VisualTypeEntry) (acc : Nat)
    (h : acc + total_weight es < 4294967296) : sum_weights es acc = acc + total_weight es := by
  induction es generalizing acc with
  | nil => simp [sum_weights, total_weight]
  | cons a as ih =>
    rw [total_weight_cons] at h
    have h1 : u32 (acc + a.random_weight) = acc + a.random_weight := u32_of_lt (by omega)
    rw [sum_weights, h1, ih _ (by omega), total_weight_cons]
    omega

/-- The scan never reports a position before the one it started at. -/
theorem scan_weights_index_ge (r : Nat) (es : List VisualTypeEntry) (acc idx k : Nat)
    (t : VisualType) (h : scan_weights r es acc idx = some (k, t)) : idx ≤ k := by
  induction es generalizing acc idx with
  | nil => simp [scan_weights] at h
  | cons a as ih =>
    rw [scan_weights] at h
    split at h
    · simp at h
      omega
    · have := ih _ _ h
      omega

/-- With the 32-bit running total as the code computes it: a draw below the final
total, and not below the starting accumulator, always breaks out of the scan at
some entry. -/
theorem scan_weights_some (r : Nat) (es : List VisualTypeEntry) (acc idx : Nat)
    (hacc : acc ≤ r) (hr : r < sum_weights es acc) :
    ∃ k e, es[k]? = some e ∧ scan_weights r es acc idx = some (idx + k, e.type) := by
  induction es generalizing acc idx with
  | nil =>
    simp [sum_weights] at hr
    omega
  | cons a as ih =>
    rw [sum_weights] at hr
    by_cases hlt : r < u32 (acc + a.random_weight)
    · exact ⟨0, a, by simp, by simp [scan_weights, hlt]⟩
    · obtain ⟨k, e, hk, hs⟩ := ih (u32 (acc + a.random_weight)) (idx + 1) (by omega) hr
      refine ⟨k + 1, e, by simpa using hk, ?_⟩
      rw [scan_weights, if_neg hlt, hs]
      congr 2
      omega

/-- With the 32-bit running total as the code computes it: the scan breaks at the
first entry at which the running total exceeds the draw. -/
theorem scan_weights_first (r : Nat) (es : List VisualTypeEntry) (acc idx k : Nat)
    (t : VisualType) (hacc : acc ≤ r) (h : scan_weights r es acc idx = some (idx + k, t)) :
    r < sum_weights (es.take (k + 1)) acc ∧
      ∀ j, j < k → sum_weights (es.take (j + 1)) acc ≤ r := by
  induction es generalizing acc idx k with
  | nil => simp [scan_weights] at h
  | cons a as ih =>
    rw [scan_weights] at h
    by_cases hlt : r < u32 (acc + a.random_weight)
    · rw [if_pos hlt] at h
      simp only [Option.some.injEq, Prod.mk.injEq] at h
      have hk : k = 0 := by omega
      subst hk
      exact ⟨by simpa [sum_weights] using hlt, fun j hj => by omega⟩
    · rw [if_neg hlt] at h
      have hge := scan_weights_index_ge _ _ _ _ _ _ h
      obtain ⟨k1, rfl⟩ : ∃ k1, k = k1 + 1 := ⟨k - 1, by omega⟩
      have hidx : idx + (k1 + 1) = idx + 1 + k1 := by omega
      rw [hidx] at h
      obtain ⟨h1, h2⟩ := ih (u32 (acc + a.random_weight)) (idx + 1) k1 (by omega) h
      refine ⟨by simpa [sum_weights] using h1, ?_⟩
      intro j hj
      cases j with
      | zero =>
        simp [sum_weights]
        omega
      | succ j =>
        have := h2 j (by omega)
        simpa [sum_weights] using this

/-- Without wrap-around, the scan breaks at position `k` exactly when the draw lies
in the half-open interval between the sums before and after entry `k`. -/
theorem scan_weights_iff (r : Nat) (es : List VisualTypeEntry) (acc idx : Nat)
    (hacc : acc ≤ r) (hsum : acc + total_weight es < 4294967296) (k : Nat) (t : VisualType) :
    scan_weights r es acc idx = some (idx + k, t) ↔
      ∃ e, es[k]? = some e ∧ t = e.type ∧ acc + cumulative_weight es k ≤ r ∧
        r < acc + cumulative_weight es (k + 1) := by
  induction es generalizing acc idx k with
  | nil => simp [scan_weights]
  | cons a as ih =>
    rw [total_weight_cons] at hsum
    have h1 : u32 (acc + a.random_weight) = acc + a.random_weight := u32_of_lt (by omega)
    rw [scan_weights, h1]
    by_cases hlt : r < acc + a.random_weight
    · rw [if_pos hlt]
      cases k with
      | zero =>
        simp [cumulative_weight_zero, cumulative_weight_cons_succ, hacc, hlt, eq_comm]
      | succ k =>
        constructor
        · intro h
          simp at h
        · rintro ⟨e, -, -, h2, -⟩
          rw [cumulative_weight_cons_succ] at h2
          omega
    · rw [if_neg hlt]
      cases k with
      | zero =>
        constructor
        · intro h
          have := scan_weights_index_ge _ _ _ _ _ _ h
          omega
        · rintro ⟨e, -, -, -, h3⟩
          rw [cumulative_weight_cons_succ, cumulative_weight_zero] at h3
          omega
      | succ k =>
        have hidx : idx + (k + 1) = idx + 1 + k := by omega
        rw [hidx, ih (acc + a.random_weight) (idx + 1) (by omega) (by omega) k]
        simp only [List.getElem?_cons_succ, cumulative_weight_cons_succ]
        constructor
        · rintro ⟨e, he, ht, h2, h3⟩
          exact ⟨e, he, ht, by omega, by omega⟩
        · rintro ⟨e, he, ht, h2, h3⟩
          exact ⟨e, he, ht, by omega, by omega⟩

/-- C1, as stated, fails when the 32-bit accumulator wraps: for the weights
`3, 4294967294, 5` and the draw `r = 4` (below the total the code computes, `6`, and
below the sum of the weights) the sum of the weights up to and including the second
entry already exceeds `r`, yet the scan passes it and selects the third entry. -/
theorem weighted_draw_overflow_counterexample :
    sum_weights overflow_entries 0 = 6 ∧ 4 < sum_weights overflow_entries 0 ∧
    4 < total_weight overflow_entries ∧
    cumulative_weight overflow_entries 1 ≤ 4 ∧ 4 < cumulative_weight overflow_entries 2 ∧
    scan_weights 4 overflow_entries 0 0 = some (2, VisualType.SUB_TEXT) := by
  decide

/-- C1 (amended): for every list of entries and every draw `r` below the total the
code computes (so that total is positive), the scan of `change_visual` never runs
off the end: it breaks at some entry `k` and assigns that entry's type, and `k` is
the first entry at which the running 32-bit total exceeds `r`. When the weights
sum to less than `2^32` (no wrap-around of the accumulator) the code's total is the
sum of the weights and `k` is the first entry whose cumulative weight (sum of the
weights up to and including it) exceeds `r`. -/
theorem weighted_draw_selects_first_exceeding (es : List VisualTypeEntry) (r : Nat)
    (hr : r < sum_weights es 0) :
    ∃ k e, es[k]? = some e ∧ scan_weights r es 0 0 = some (k, e.type) ∧
      r < running_total es (k + 1) ∧
      (∀ j, j < k → running_total es (j + 1) ≤ r) ∧
      (total_weight es < 4294967296 →
        sum_weights es 0 = total_weight es ∧
        r < cumulative_weight es (k + 1) ∧
        ∀ j, j < k → cumulative_weight es (j + 1) ≤ r) := by
  obtain ⟨k, e, hk, hs⟩ := scan_weights_some r es 0 0 (Nat.zero_le _) hr
  obtain ⟨hf1, hf2⟩ := scan_weights_first r es 0 0 k e.type (Nat.zero_le _) hs
  refine ⟨k, e, hk, by simpa using hs, hf1, hf2, ?_⟩
  intro hsum
  have hiff := (scan_weights_iff r es 0 0 (Nat.zero_le _) (by omega) k e.type).mp hs
  obtain ⟨e1, -, -, h2, h3⟩ := hiff
  simp only [Nat.zero_add] at h2 h3
  refine ⟨by simpa using sum_weights_eq es 0 (by omega), h3, ?_⟩
  intro j hj
  exact Nat.le_trans (cumulative_weight_mono es (by omega)) h2

/-- The amended C1 at the example program with the draw 4: the second entry is selected. -/
theorem weighted_draw_selects_first_exceeding_witness :
    4 < sum_weights example_program.visual_type 0 ∧
    ∃ k e, example_program.visual_type[k]? = some e ∧
      scan_weights 4 example_program.visual_type 0 0 = some (k, e.type) ∧
      4 < running_total example_program.visual_type (k + 1) ∧
      (∀ j, j < k → running_total example_program.visual_type (j + 1) ≤ 4) ∧
      (total_weight example_program.visual_type < 4294967296 →
        sum_weights example_program.visual_type 0 = total_weight example_program.visual_type ∧
        4 < cumulative_weight example_program.visual_type (k + 1) ∧
        ∀ j, j < k → cumulative_weight example_program.visual_type (j + 1) ≤ 4) :=
  ⟨by decide, weighted_draw_selects_first_exceeding example_program.visual_type 4 (by decide)⟩

/-- C2: when the weights sum to less than `2^32` (no 32-bit overflow), the code's
total is the sum of the weights, and for every entry `k` exactly `weight_k` of the
draws `r` in `[0, total)` make the scan of `change_visual` select entry `k`; an entry
of weight 0 is selected by no `r` at all. -/
theorem weighted_draw_proportions (es : List VisualTypeEntry) (k : Nat) (e : VisualTypeEntry)
    (hsum : total_weight es < 4294967296) (hk : es[k]? = some e) :
    sum_weights es 0 = total_weight es ∧
    ((Finset.range (sum_weights es 0)).filter
        (fun r => (scan_weights r es 0 0).map Prod.fst = some k)).card = e.random_weight ∧
    (e.random_weight = 0 → ∀ r, (scan_weights r es 0 0).map Prod.fst ≠ some k) := by
  have htot : sum_weights es 0 = total_weight es := by
    simpa using sum_weights_eq es 0 (by omega)
  have hchar : ∀ r, (scan_weights r es 0 0).map Prod.fst = some k ↔
      cumulative_weight es k ≤ r ∧ r < cumulative_weight es (k + 1) := by
    intro r
    constructor
    · intro h
      rcases hs : scan_weights r es 0 0 with _ | ⟨k1, t⟩
      · simp [hs] at h
      · simp [hs] at h
        subst h
        have := (scan_weights_iff r es 0 0 (Nat.zero_le _) (by omega) k1 t).mp
          (by simpa using hs)
        obtain ⟨_, -, -, h2, h3⟩ := this
        exact ⟨by omega, by omega⟩
    · rintro ⟨h2, h3⟩
      have := (scan_weights_iff r es 0 0 (Nat.zero_le _) (by omega) k e.type).mpr
        ⟨e, hk, rfl, by omega, by omega⟩
      simp only [Nat.zero_add] at this
      simp [this]
  have hsucc := cumulative_weight_succ es k e hk
  refine ⟨htot, ?_, ?_⟩
  · have hset : (Finset.range (sum_weights es 0)).filter
        (fun r => (scan_weights r es 0 0).map Prod.fst = some k)
        = Finset.Ico (cumulative_weight es k) (cumulative_weight es (k + 1)) := by
      ext r
      simp only [Finset.mem_filter, Finset.mem_range, Finset.mem_Ico, hchar r]
      constructor
      · rintro ⟨-, h⟩
        exact h
      · intro h
        refine ⟨?_, h⟩
        have := cumulative_weight_le_total es (k + 1)
        omega
    rw [hset, Nat.card_Ico]
    omega
  · intro hz r h
    have := (hchar r).mp h
    omega

/-- C2 at the example program: two of the five draws select the entry of weight 2. -/
theorem weighted_draw_proportions_witness :
    sum_weights example_program.visual_type 0 = total_weight example_program.visual_type ∧
    ((Finset.range (sum_weights example_program.visual_type 0)).filter
        (fun r => (scan_weights r example_program.visual_type 0 0).map Prod.fst = some 1)).card
      = (⟨VisualType.SLOW_FLASH, 2⟩ : VisualTypeEntry).random_weight ∧
    ((⟨VisualType.SLOW_FLASH, 2⟩ : VisualTypeEntry).random_weight = 0 →
      ∀ r, (scan_weights r example_program.visual_type 0 0).map Prod.fst ≠ some 1) :=
  weighted_draw_proportions example_program.visual_type 1 ⟨VisualType.SLOW_FLASH, 2⟩
    (by decide) (by decide)


/-! ## The transition gate -/

theorem gate_skips_iff (length d : Nat) :
    gate_skips length d = true ↔ length ≠ 0 ∧ 120 ≤ d := by
  simp [gate_skips]

theorem change_visual_of_skip {C : Type} (ops : CyclerOps C) (dir : Director C)
    (length d r : Nat) (h : gate_skips length d = true) :
    change_visual ops dir length d r = some dir := by
  simp [change_visual, h]

theorem change_visual_of_proceed {C : Type} (ops : CyclerOps C) (dir : Director C)
    (length d r k : Nat) (t : VisualType) (h : gate_skips length d = false)
    (hs : scan_weights r dir._program.visual_type 0 0 = some (k, t)) :
    change_visual ops dir length d r =
      some { swap_visuals dir with _visual := reset_visual ops t dir._old_visual } := by
  simp [change_visual, h, hs, swap_visuals]

/-- C3: the gate of `change_visual(length)`. With `d` the value drawn from
`[0, threshold)`, `threshold = (2*fps*length)/2048` (computed in `uint32_t`, which is
the plain quotient when `2*fps*length < 2^32`): the early return is taken exactly
when `length != 0` and `d >= 120`, and it leaves the director (so the current
visual) unchanged; with `length == 0` it is never taken, whatever `d`; when it is
not taken the active visual moves to the retiring slot and the drawn type is
instantiated; whenever `threshold <= 120` it is not taken for any `d` below the
threshold; and for fps 60, length 2048 the threshold is 120. -/
theorem transition_gate {C : Type} (ops : CyclerOps C) (dir : Director C) (length d r : Nat) :
    (gate_skips length d = true ↔ length ≠ 0 ∧ 120 ≤ d) ∧
    (gate_skips length d = true → change_visual ops dir length d r = some dir) ∧
    (gate_skips length d = false → ∀ k t,
      scan_weights r dir._program.visual_type 0 0 = some (k, t) →
      change_visual ops dir length d r =
        some { swap_visuals dir with _visual := reset_visual ops t dir._old_visual }) ∧
    gate_skips 0 d = false ∧
    (gate_threshold dir._program.global_fps length ≤ 120 →
      d < gate_threshold dir._program.global_fps length → gate_skips length d = false) ∧
    (2 * dir._program.global_fps * length < 4294967296 →
      gate_threshold dir._program.global_fps length
        = 2 * dir._program.global_fps * length / 2048) ∧
    gate_threshold 60 2048 = 120 := by
  refine ⟨gate_skips_iff length d, change_visual_of_skip ops dir length d r, ?_, ?_, ?_, ?_, ?_⟩
  · intro h k t hs
    exact change_visual_of_proceed ops dir length d r k t h hs
  · simp [gate_skips]
  · intro h1 h2
    have h3 : ¬ (120 ≤ d) := by omega
    simp [gate_skips, h3]
  · intro h
    rcases Nat.eq_zero_or_pos length with h0 | h0
    · subst h0
      simp [gate_threshold, u32]
    · have h1 : 2 * dir._program.global_fps < 4294967296 := by
        have := Nat.le_mul_of_pos_right (2 * dir._program.global_fps) h0
        omega
      unfold gate_threshold
      rw [u32_of_lt h1, u32_of_lt h]
  · decide

/-- The gate at 60 frames per second and length 2048 with the draw 119: no skip. -/
theorem transition_gate_witness :
    gate_skips 2048 119 = false ∧
    (gate_threshold example_director._program.global_fps 2048 ≤ 120 →
      119 < gate_threshold example_director._program.global_fps 2048 →
      gate_skips 2048 119 = false) :=
  ⟨(transition_gate example_ops example_director 2048 119 4).2.2.2.2.1 (by decide) (by decide),
   (transition_gate example_ops example_director 2048 119 4).2.2.2.2.1⟩

/-- C4, as stated, fails: for fps 60 and length 1024 the threshold is 60, and of the
60 values `d` in `[0, 60)` none makes `change_visual` return early; the skip rate
is 0, not about one half. -/
theorem gate_skip_rate_counterexample :
    gate_threshold 60 1024 = 60 ∧
    ((Finset.range (gate_threshold 60 1024)).filter
      (fun d => gate_skips 1024 d = true)).card = 0 := by
  decide

/-- C4 (amended): for fps 60 and length 1024 the threshold `(2*fps*length)/2048` is
60, and every value `d` drawn from `[0, 60)` is below 120, so `change_visual` never
takes the early return: the transition always proceeds, exactly as it does for
`length == 0`. -/
theorem gate_never_skips_at_60_1024 (d : Nat) (hd : d < gate_threshold 60 1024) :
    gate_threshold 60 1024 = 60 ∧ gate_skips 1024 d = false ∧
    ∀ (C : Type) (ops : CyclerOps C) (dir : Director C) (r : Nat),
      change_visual ops dir 1024 d r = change_visual ops dir 0 d r := by
  have h60 : gate_threshold 60 1024 = 60 := by decide
  rw [h60] at hd
  have h3 : ¬ (120 ≤ d) := by omega
  have hskip : gate_skips 1024 d = false := by simp [gate_skips, h3]
  refine ⟨h60, hskip, ?_⟩
  intro C ops dir r
  have h0 : gate_skips 0 d = false := by simp [gate_skips]
  simp [change_visual, hskip, h0]

/-- The amended C4 at the largest possible draw, 59. -/
theorem gate_never_skips_at_60_1024_witness :
    59 < gate_threshold 60 1024 ∧ gate_threshold 60 1024 = 60 ∧ gate_skips 1024 59 = false ∧
    ∀ (C : Type) (ops : CyclerOps C) (dir : Director C) (r : Nat),
      change_visual ops dir 1024 59 r = change_visual ops dir 0 59 r :=
  ⟨by decide, gate_never_skips_at_60_1024 59 (by decide)⟩

/-! ## The two visual slots -/

theorem reset_visual_of_recognised {C : Type} (ops : CyclerOps C) (t : VisualType)
    (v : Option (Visual C)) (ht : t ≠ VisualType.UNRECOGNISED) :
    reset_visual ops t v = some ⟨t, ops.make t⟩ := by
  cases t <;> simp [reset_visual] at ht ⊢

/-- When every draw is below the code's total and every configured type is one of
the eight, a call of `change_visual` that passes the gate is defined, parks the
active visual in the retiring slot and fills the active slot with a new visual. -/
theorem change_visual_proceeds {C : Type} (ops : CyclerOps C) (dir : Director C)
    (length d r : Nat)
    (htypes : ∀ e ∈ dir._program.visual_type, e.type ≠ VisualType.UNRECOGNISED)
    (hr : r < sum_weights dir._program.visual_type 0)
    (hgate : gate_skips length d = false) :
    ∃ k e, dir._program.visual_type[k]? = some e ∧
      scan_weights r dir._program.visual_type 0 0 = some (k, e.type) ∧
      change_visual ops dir length d r =
        some { dir with _visual := some ⟨e.type, ops.make e.type⟩, _old_visual := dir._visual } := by
  obtain ⟨k, e, hk, hs⟩ := scan_weights_some r dir._program.visual_type 0 0 (Nat.zero_le _) hr
  simp only [Nat.zero_add] at hs
  have hmem : e ∈ dir._program.visual_type := List.getElem?_mem hk
  refine ⟨k, e, hk, hs, ?_⟩
  rw [change_visual_of_proceed ops dir length d r k e.type hgate hs,
    reset_visual_of_recognised ops e.type _ (htypes e hmem)]
  rfl

/-- The visual part of `update` for a director whose active slot is filled. -/
theorem update_visual_spec {C : Type} (ops : CyclerOps C) (dir : Director C) (d r : Nat)
    (v : Visual C) (hv : dir._visual = some v)
    (htypes : ∀ e ∈ dir._program.visual_type, e.type ≠ VisualType.UNRECOGNISED)
    (hr : r < sum_weights dir._program.visual_type 0) :
    ∃ dir1, update_visual ops dir d r = some dir1 ∧
      dir1._program = dir._program ∧ dir1._system = dir._system ∧
      dir1._width = dir._width ∧ dir1._height = dir._height ∧
      dir1._realtime = dir._realtime ∧ dir1.oculus_enabled = dir.oculus_enabled ∧
      dir1._visual.isSome = true ∧
      dir1._old_visual =
        (if (ops.complete (ops.advance v.cycler) &&
              !gate_skips (ops.length (ops.advance v.cycler)) d) = true
         then some { v with cycler := ops.advance v.cycler } else none) ∧
      ((ops.complete (ops.advance v.cycler) &&
              !gate_skips (ops.length (ops.advance v.cycler)) d) = false →
        dir1._visual = some { v with cycler := ops.advance v.cycler }) := by
  unfold update_visual
  simp only [hv]
  by_cases hc : ops.complete (ops.advance v.cycler) = true
  · simp only [hc, if_true, Bool.true_and]
    cases hg : gate_skips (ops.length (ops.advance v.cycler)) d
    · obtain ⟨k, e, -, -, hcv⟩ := change_visual_proceeds ops
        { dir with _old_visual := none, _visual := some { v with cycler := ops.advance v.cycler } }
        (ops.length (ops.advance v.cycler)) d r htypes hr hg
      rw [hcv]
      exact ⟨_, rfl, rfl, rfl, rfl, rfl, rfl, rfl, rfl, by simp, by simp⟩
    · rw [change_visual_of_skip ops _ _ d r hg]
      exact ⟨_, rfl, rfl, rfl, rfl, rfl, rfl, rfl, rfl, by simp, by simp⟩
  · simp only [Bool.not_eq_true] at hc
    simp only [hc, Bool.false_and]
    exact ⟨_, rfl, rfl, rfl, rfl, rfl, rfl, rfl, rfl, by simp, by simp⟩

theorem update_status_fields {C : Type} (dir : Director C) (status : SessionStatus) :
    (update_status dir status).1._visual = dir._visual ∧
    (update_status dir status).1._old_visual = dir._old_visual ∧
    (update_status dir status).1._program = dir._program ∧
    (update_status dir status).2 = !(dir._realtime && dir.oculus_enabled && status.ShouldQuit) := by
  unfold update_status
  cases h1 : (dir._realtime && dir.oculus_enabled) <;> cases h2 : status.ShouldQuit <;> simp [h1]

/-- One call of `update` on a director whose active slot is filled. -/
theorem update_spec {C : Type} (ops : CyclerOps C) (dir : Director C) (d r : Nat)
    (status : SessionStatus) (v : Visual C) (hv : dir._visual = some v)
    (htypes : ∀ e ∈ dir._program.visual_type, e.type ≠ VisualType.UNRECOGNISED)
    (hr : r < sum_weights dir._program.visual_type 0) :
    ∃ dir1, update ops dir d r status =
        some (dir1, !(dir._realtime && dir.oculus_enabled && status.ShouldQuit)) ∧
      dir1._program = dir._program ∧
      dir1._visual.isSome = true ∧
      dir1._old_visual =
        (if (ops.complete (ops.advance v.cycler) &&
              !gate_skips (ops.length (ops.advance v.cycler)) d) = true
         then some { v with cycler := ops.advance v.cycler } else none) ∧
      ((ops.complete (ops.advance v.cycler) &&
              !gate_skips (ops.length (ops.advance v.cycler)) d) = false →
        dir1._visual = some { v with cycler := ops.advance v.cycler }) := by
  obtain ⟨d1, h1, hp, -, -, -, hrt, hen, hvis, hold, hkeep⟩ :=
    update_visual_spec ops dir d r v hv htypes hr
  obtain ⟨s1, s2, s3, s4⟩ := update_status_fields d1 status
  refine ⟨(update_status d1 status).1, ?_, ?_, ?_, ?_, ?_⟩
  · rw [update, h1]
    simp only
    rw [← hrt, ← hen, ← s4]
  · rw [s3, hp]
  · rw [s1, hvis]
  · rw [s2, hold]
  · intro h
    rw [s1, hkeep h]

theorem construct_spec {C : Type} (ops : CyclerOps C) (p : Program) (system : System)
    (width height : Nat) (realtime enabled : Bool) (r : Nat)
    (htypes : ∀ e ∈ p.visual_type, e.type ≠ VisualType.UNRECOGNISED)
    (hr : r < sum_weights p.visual_type 0) :
    ∃ dir, construct ops p system width height realtime enabled r = some dir ∧
      dir._program = p ∧ dir._visual.isSome = true ∧ dir._old_visual = none := by
  obtain ⟨k, e, -, -, hcv⟩ := change_visual_proceeds ops
    (initial_director C p system width height realtime enabled) 0 0 r htypes hr
    (by simp [gate_skips])
  exact ⟨_, hcv, rfl, rfl, rfl⟩

theorem run_updates_spec {C : Type} (ops : CyclerOps C) (ticks : List Tick) (dir : Director C)
    (hv : dir._visual.isSome = true)
    (htypes : ∀ e ∈ dir._program.visual_type, e.type ≠ VisualType.UNRECOGNISED)
    (hr : ∀ tk ∈ ticks, tk.r < sum_weights dir._program.visual_type 0) :
    ∃ dir1, run_updates ops dir ticks = some dir1 ∧ dir1._program = dir._program ∧
      dir1._visual.isSome = true := by
  induction ticks generalizing dir with
  | nil => exact ⟨dir, rfl, rfl, hv⟩
  | cons tk tks ih =>
    obtain ⟨v, hv1⟩ := Option.isSome_iff_exists.mp hv
    obtain ⟨d1, h1, hp, hvis, -, -⟩ :=
      update_spec ops dir tk.d tk.r tk.status v hv1 htypes (hr tk (List.mem_cons_self _ _))
    obtain ⟨d2, h2, hp2, hvis2⟩ := ih d1 hvis (by rw [hp]; exact htypes)
      (by
        intro t ht
        rw [hp]
        exact hr t (List.mem_cons_of_mem _ ht))
    refine ⟨d2, ?_, by rw [hp2, hp], hvis2⟩
    rw [run_updates, h1]
    exact h2


theorem change_visual_flags {C : Type} (ops : CyclerOps C) (dir dir1 : Director C)
    (length d r : Nat) (h : change_visual ops dir length d r = some dir1) :
    dir1._realtime = dir._realtime ∧ dir1.oculus_enabled = dir.oculus_enabled := by
  unfold change_visual at h
  split at h
  · simp at h
    subst h
    exact ⟨rfl, rfl⟩
  · split at h
    · simp at h
    · simp at h
      subst h
      exact ⟨rfl, rfl⟩

theorem update_visual_flags {C : Type} (ops : CyclerOps C) (dir dir1 : Director C)
    (d r : Nat) (h : update_visual ops dir d r = some dir1) :
    dir1._realtime = dir._realtime ∧ dir1.oculus_enabled = dir.oculus_enabled := by
  unfold update_visual at h
  split at h
  · simp at h
  · simp only at h
    split at h
    · have hf := change_visual_flags ops _ dir1 _ _ _ h
      exact hf
    · simp at h
      subst h
      exact ⟨rfl, rfl⟩

/-- C5, as stated, fails when the 32-bit total wraps to zero: for the two weights
`2^31`, `2^31` the configured total weight is `2^32 > 0` and both types are among
the eight, yet the total the code computes is 0, no draw lies below it, and for
every draw from `2^31` on the scan runs off the end, so that the constructor does
not fill the active slot. -/
theorem visual_lifecycle_wrap_counterexample :
    total_weight wrap_program.visual_type = 4294967296 ∧
    0 < total_weight wrap_program.visual_type ∧
    (∀ e ∈ wrap_program.visual_type, e.type ≠ VisualType.UNRECOGNISED) ∧
    sum_weights wrap_program.visual_type 0 = 0 ∧
    (∀ r, ¬ r < sum_weights wrap_program.visual_type 0) ∧
    (∀ r, 2147483648 ≤ r →
      construct example_ops wrap_program ⟨1, 1⟩ 512 512 true false r = none) := by
  refine ⟨by decide, by decide, by decide, by decide, ?_, ?_⟩
  · intro r
    have h : sum_weights wrap_program.visual_type 0 = 0 := by decide
    rw [h]
    omega
  · intro r hr
    have h1 : ¬ r < 2147483648 := by omega
    simp [construct, change_visual, gate_skips, initial_director, wrap_program, scan_weights,
      u32, h1]

/-- C5 (amended): the two-slot lifecycle. The total weight is the one the code
computes, the 32-bit sum of the configured weights, which is the configured total
when that is below `2^32`. Provided every configured type is one of the eight
variants and every weighted draw lies in `[0, total)` (so the total the code
computes is positive): the constructor leaves the active slot filled and the
retiring slot empty; every `update()` on a director whose active slot is filled is
defined, leaves the active slot filled, and leaves the retiring slot holding the
visual that was active before this update if this update performed a transition
(the cycler completed and the gate did not skip) and empty otherwise, whatever the
retiring slot held before; so a retiring visual is gone after the next update. The
same holds after any sequence of updates following construction. -/
theorem visual_lifecycle_invariant {C : Type} (ops : CyclerOps C) (p : Program)
    (htypes : ∀ e ∈ p.visual_type, e.type ≠ VisualType.UNRECOGNISED) :
    (total_weight p.visual_type < 4294967296 →
      sum_weights p.visual_type 0 = total_weight p.visual_type) ∧
    (∀ (system : System) (width height : Nat) (realtime enabled : Bool) (r : Nat),
      r < sum_weights p.visual_type 0 →
      ∃ dir, construct ops p system width height realtime enabled r = some dir ∧
        dir._program = p ∧ dir._visual.isSome = true ∧ dir._old_visual = none) ∧
    (∀ (dir : Director C) (v : Visual C) (d r : Nat) (status : SessionStatus),
      dir._program = p → dir._visual = some v → r < sum_weights p.visual_type 0 →
      ∃ dir1 b, update ops dir d r status = some (dir1, b) ∧
        dir1._program = p ∧ dir1._visual.isSome = true ∧
        dir1._old_visual =
          (if (ops.complete (ops.advance v.cycler) &&
                !gate_skips (ops.length (ops.advance v.cycler)) d) = true
           then some { v with cycler := ops.advance v.cycler } else none) ∧
        ((ops.complete (ops.advance v.cycler) &&
                !gate_skips (ops.length (ops.advance v.cycler)) d) = false →
          dir1._visual = some { v with cycler := ops.advance v.cycler })) ∧
    (∀ (system : System) (width height : Nat) (realtime enabled : Bool) (r : Nat)
      (ticks : List Tick),
      r < sum_weights p.visual_type 0 →
      (∀ tk ∈ ticks, tk.r < sum_weights p.visual_type 0) →
      ∃ dir0 dir1, construct ops p system width height realtime enabled r = some dir0 ∧
        run_updates ops dir0 ticks = some dir1 ∧ dir1._visual.isSome = true) := by
  refine ⟨?_, ?_, ?_, ?_⟩
  · intro hsum
    simpa using sum_weights_eq p.visual_type 0 (by omega)
  · intro system width height realtime enabled r hr
    exact construct_spec ops p system width height realtime enabled r htypes hr
  · intro dir v d r status hp hv hr
    subst hp
    obtain ⟨d1, h1, h2, h3, h4, h5⟩ := update_spec ops dir d r status v hv htypes hr
    exact ⟨d1, _, h1, h2, h3, h4, h5⟩
  · intro system width height realtime enabled r ticks hr hticks
    obtain ⟨d0, h0, hp0, hv0, -⟩ :=
      construct_spec ops p system width height realtime enabled r htypes hr
    obtain ⟨d1, h1, -, hv1⟩ := run_updates_spec ops ticks d0 hv0
      (by rw [hp0]; exact htypes) (by rw [hp0]; exact hticks)
    exact ⟨d0, d1, h0, h1, hv1⟩

/-- One update of the example director, whose cycler completes: the draw 7 passes the
gate, and the draw 4 lies below the total 5 of the example program. -/
theorem visual_lifecycle_invariant_witness :
    4 < sum_weights example_program.visual_type 0 ∧
    ∃ dir1 b, update example_ops example_director 7 4 quit_status = some (dir1, b) ∧
      dir1._program = example_program ∧ dir1._visual.isSome = true ∧
      dir1._old_visual =
        (if (example_ops.complete (example_ops.advance 1) &&
              !gate_skips (example_ops.length (example_ops.advance 1)) 7) = true
         then some { (⟨VisualType.ACCELERATE, 1⟩ : Visual Nat) with
                      cycler := example_ops.advance 1 } else none) ∧
      ((example_ops.complete (example_ops.advance 1) &&
              !gate_skips (example_ops.length (example_ops.advance 1)) 7) = false →
        dir1._visual = some { (⟨VisualType.ACCELERATE, 1⟩ : Visual Nat) with
                      cycler := example_ops.advance 1 }) :=
  ⟨by decide, (visual_lifecycle_invariant example_ops example_program (by decide)).2.2.1
    example_director ⟨VisualType.ACCELERATE, 1⟩ 7 4 quit_status rfl rfl (by decide)⟩

/-- C6: `update()` returns false exactly when the VR pipeline is active (`_realtime`
and `_oculus.enabled`) and the polled status has `ShouldQuit` set. Whenever the call
returns, its value is false if and only if that holds; and on a director whose
active slot is filled (types among the eight, weighted draw below the total) the
call does return, with the value `!(realtime && enabled && ShouldQuit)`, whatever
the other status fields are. -/
theorem update_false_iff_should_quit {C : Type} (ops : CyclerOps C) (dir : Director C)
    (d r : Nat) (status : SessionStatus) :
    (∀ dir1 b, update ops dir d r status = some (dir1, b) →
      (b = false ↔
        dir._realtime = true ∧ dir.oculus_enabled = true ∧ status.ShouldQuit = true)) ∧
    (dir._visual.isSome = true →
      (∀ e ∈ dir._program.visual_type, e.type ≠ VisualType.UNRECOGNISED) →
      r < sum_weights dir._program.visual_type 0 →
      ∃ dir1, update ops dir d r status =
        some (dir1, !(dir._realtime && dir.oculus_enabled && status.ShouldQuit))) := by
  constructor
  · intro dir1 b h
    unfold update at h
    split at h
    · simp at h
    · rename_i d1 hd1
      obtain ⟨hrt, hen⟩ := update_visual_flags ops dir d1 d r hd1
      obtain ⟨-, -, -, s4⟩ := update_status_fields d1 status
      simp only [Option.some.injEq] at h
      have hb : b = !(dir._realtime && dir.oculus_enabled && status.ShouldQuit) := by
        rw [← hrt, ← hen, ← s4, h]
      rw [hb]
      cases dir._realtime <;> cases dir.oculus_enabled <;> cases status.ShouldQuit <;> simp
  · intro hv htypes hr
    obtain ⟨v, hv1⟩ := Option.isSome_iff_exists.mp hv
    obtain ⟨d1, h1, -⟩ := update_spec ops dir d r status v hv1 htypes hr
    exact ⟨d1, h1⟩

/-- The example director, in VR mode, polled with a status that asks to quit: `update` returns false. -/
theorem update_false_iff_should_quit_witness :
    ∃ dir1, update example_ops example_director 7 4 quit_status = some (dir1, false) :=
  (update_false_iff_should_quit example_ops example_director 7 4 quit_status).2
    rfl (by decide) (by decide)


/-! ## Loops with fuel -/

/-- A loop whose test first fails at index `n` returns, given enough fuel, what the
bodies at the indices `k, ..., n - 1` produce, in order. -/
theorem for_loop_eq {α : Type} (test : Nat → Bool) (body : Nat → Option (List α))
    (f : Nat → List α) (n : Nat) :
    ∀ fuel k, k ≤ n → n - k < fuel →
      (∀ m, k ≤ m → m < n → test m = true ∧ body m = some (f m)) → test n = false →
      for_loop test body fuel k = some ((List.range' k (n - k)).flatMap f) := by
  intro fuel
  induction fuel with
  | zero =>
    intro k _ hf
    omega
  | succ fuel ih =>
    intro k hk hf hbody hn
    rcases Nat.eq_or_lt_of_le hk with heq | hlt
    · subst heq
      simp [for_loop, hn]
    · obtain ⟨ht, hb⟩ := hbody k (Nat.le_refl _) hlt
      have hrec := ih (k + 1) hlt (by omega)
        (fun m hm1 hm2 => hbody m (by omega) hm2) hn
      have hsplit : n - k = (n - (k + 1)) + 1 := by omega
      rw [for_loop, if_pos ht, hb]
      simp only [hrec]
      rw [hsplit, List.range'_succ]
      simp

/-- A loop whose test fails at some index, and whose bodies finish before it, finishes
given fuel beyond that index. -/
theorem for_loop_isSome {α : Type} (test : Nat → Bool) (body : Nat → Option (List α))
    (n : Nat) (hn : test n = false) (hbody : ∀ m, m < n → (body m).isSome = true) :
    ∀ fuel k, k ≤ n → n - k < fuel → (for_loop test body fuel k).isSome = true := by
  intro fuel
  induction fuel with
  | zero =>
    intro k _ hf
    omega
  | succ fuel ih =>
    intro k hk hf
    rw [for_loop]
    by_cases ht : test k = true
    · have hlt : k < n := by
        rcases Nat.eq_or_lt_of_le hk with h | h
        · subst h
          rw [hn] at ht
          simp at ht
        · exact h
      obtain ⟨out, hout⟩ := Option.isSome_iff_exists.mp (hbody k hlt)
      obtain ⟨rest, hrest⟩ := Option.isSome_iff_exists.mp (ih (k + 1) hlt (by omega))
      simp [ht, hout, hrest]
    · simp [ht]

/-! ## Binary32 rounding: the values it leaves unchanged -/

theorem round_even_intCast (n : ℤ) : round_even (n : ℚ) = n := by
  simp [round_even]

theorem f32_zero : f32 0 = 0 := by
  simp [f32]

/-- A rational `m * 2^k` with `|m| < 2^24` is a binary32 number: rounding leaves it. -/
theorem f32_of_dyadic (m k : ℤ) (hm : |m| < 16777216) :
    f32 ((m : ℚ) * (2 : ℚ) ^ k) = (m : ℚ) * (2 : ℚ) ^ k := by
  by_cases h0 : m = 0
  · subst h0
    simp [f32]
  have h2 : (2 : ℚ) ≠ 0 := by norm_num
  have hpow : (0 : ℚ) < (2 : ℚ) ^ k := zpow_pos (by norm_num) k
  have hq : (m : ℚ) * (2 : ℚ) ^ k ≠ 0 :=
    mul_ne_zero (by exact_mod_cast h0) (ne_of_gt hpow)
  have habs : |(m : ℚ) * (2 : ℚ) ^ k| = (|m| : ℤ) * (2 : ℚ) ^ k := by
    rw [abs_mul, abs_of_pos hpow]
    push_cast
    rfl
  have hlog := Int.zpow_log_le_self (b := 2) (r := |(m : ℚ) * (2 : ℚ) ^ k|) (by norm_num)
    (abs_pos.mpr hq)
  have hlt : |(m : ℚ) * (2 : ℚ) ^ k| < (2 : ℚ) ^ (24 + k) := by
    rw [habs, zpow_add₀ h2]
    have : ((|m| : ℤ) : ℚ) < (2 : ℚ) ^ (24 : ℤ) := by
      have h24 : ((2 : ℚ) ^ (24 : ℤ)) = ((16777216 : ℤ) : ℚ) := by norm_num
      rw [h24]
      exact_mod_cast hm
    exact mul_lt_mul_of_pos_right this hpow
  have he : Int.log 2 |(m : ℚ) * (2 : ℚ) ^ k| < 24 + k := by
    have h3 : ((2 : ℕ) : ℚ) ^ Int.log 2 |(m : ℚ) * (2 : ℚ) ^ k| < (2 : ℚ) ^ (24 + k) :=
      lt_of_le_of_lt hlog hlt
    have h4 : (2 : ℚ) ^ Int.log 2 |(m : ℚ) * (2 : ℚ) ^ k| < (2 : ℚ) ^ (24 + k) := by
      simpa using h3
    exact (zpow_lt_zpow_iff_right₀ (by norm_num : (1 : ℚ) < 2)).mp h4
  obtain ⟨d, hd⟩ : ∃ d : ℕ, (d : ℤ) = k - (Int.log 2 |(m : ℚ) * (2 : ℚ) ^ k| - 23) :=
    ⟨(k - (Int.log 2 |(m : ℚ) * (2 : ℚ) ^ k| - 23)).toNat, Int.toNat_of_nonneg (by omega)⟩
  have hdiv : (m : ℚ) * (2 : ℚ) ^ k / (2 : ℚ) ^ (Int.log 2 |(m : ℚ) * (2 : ℚ) ^ k| - 23)
      = ((m * 2 ^ d : ℤ) : ℚ) := by
    rw [mul_div_assoc, ← zpow_sub₀ h2, ← hd, zpow_natCast]
    push_cast
    rfl
  unfold f32
  rw [if_neg hq, hdiv, round_even_intCast]
  push_cast
  rw [mul_assoc, ← zpow_natCast, hd, ← zpow_add₀ h2]
  congr 2
  omega

theorem f32_intCast (n : ℤ) (hn : |n| < 16777216) : f32 (n : ℚ) = n := by
  have := f32_of_dyadic n 0 hn
  simpa using this

theorem f32_natCast (n : ℕ) (hn : n < 16777216) : f32 (n : ℚ) = n := by
  have := f32_intCast (n : ℤ) (by rw [abs_of_nonneg (by positivity)]; exact_mod_cast hn)
  simpa using this

theorem f32_neg_natCast (n : ℕ) (hn : n < 16777216) : f32 (-(n : ℚ)) = -(n : ℚ) := by
  have := f32_intCast (-(n : ℤ)) (by rw [abs_neg, abs_of_nonneg (by positivity)]; exact_mod_cast hn)
  simpa using this

theorem f32_natCast_half (n : ℕ) (hn : n < 16777216) : f32 ((n : ℚ) / 2) = (n : ℚ) / 2 := by
  have := f32_of_dyadic (n : ℤ) (-1) (by rw [abs_of_nonneg (by positivity)]; exact_mod_cast hn)
  simpa [div_eq_mul_inv] using this

theorem f32_neg_natCast_half (n : ℕ) (hn : n < 16777216) :
    f32 (-((n : ℚ) / 2)) = -((n : ℚ) / 2) := by
  have := f32_of_dyadic (-(n : ℤ)) (-1)
    (by rw [abs_neg, abs_of_nonneg (by positivity)]; exact_mod_cast hn)
  simpa [div_eq_mul_inv] using this

theorem f32_one : f32 1 = 1 := by
  have := f32_natCast 1 (by norm_num)
  simpa using this


/-! ## Binary32 rounding: error and sign -/

/-- Rounding to the nearest integer moves a number by at most one half. -/
theorem round_even_err (t : ℚ) : |(round_even t : ℚ) - t| ≤ 1 / 2 := by
  have h1 := Int.floor_le t
  have h2 := Int.lt_floor_add_one t
  unfold round_even
  split_ifs with a b c
  · rw [abs_le]
    constructor <;> linarith
  · push_cast
    rw [abs_le]
    constructor <;> linarith
  · have : t - ⌊t⌋ = 1 / 2 := le_antisymm (not_lt.mp b) (not_lt.mp a)
    rw [abs_le]
    constructor <;> linarith
  · have : t - ⌊t⌋ = 1 / 2 := le_antisymm (not_lt.mp b) (not_lt.mp a)
    push_cast
    rw [abs_le]
    constructor <;> linarith

/-- A number within less than one half of an integer rounds to that integer. -/
theorem round_even_eq_of_near (t : ℚ) (m : ℤ) (h : |t - m| < 1 / 2) : round_even t = m := by
  rw [abs_lt] at h
  obtain ⟨h1, h2⟩ := h
  have hf1 := Int.floor_le t
  have hf2 := Int.lt_floor_add_one t
  have hcases : ⌊t⌋ = m ∨ ⌊t⌋ = m - 1 := by
    have a1 : (⌊t⌋ : ℚ) < m + 1 / 2 := by linarith
    have a2 : (m : ℚ) - 3 / 2 < ⌊t⌋ := by linarith
    have b1 : ⌊t⌋ < m + 1 := by
      have : ((⌊t⌋ : ℤ) : ℚ) < ((m + 1 : ℤ) : ℚ) := by push_cast; linarith
      exact_mod_cast this
    have b2 : m - 2 < ⌊t⌋ := by
      have : ((m - 2 : ℤ) : ℚ) < ((⌊t⌋ : ℤ) : ℚ) := by push_cast; linarith
      exact_mod_cast this
    omega
  unfold round_even
  rcases hcases with hc | hc
  · have : t - ⌊t⌋ < 1 / 2 := by rw [hc]; linarith
    rw [if_pos this, hc]
  · have hc2 : (⌊t⌋ : ℚ) = m - 1 := by rw [hc]; push_cast; ring
    have a : ¬ (t - ⌊t⌋ < 1 / 2) := by rw [hc2]; linarith
    have b : 1 / 2 < t - ⌊t⌋ := by rw [hc2]; linarith
    rw [if_neg a, if_pos b, hc]
    ring

/-- The binade of a nonzero rational: `2^e <= |q| < 2^(e+1)` fixes `Int.log 2 |q|`. -/
theorem log_eq_of_bounds (q : ℚ) (e : ℤ) (h1 : (2 : ℚ) ^ e ≤ |q|) (h2 : |q| < (2 : ℚ) ^ (e + 1)) :
    Int.log 2 |q| = e := by
  have hpos : 0 < |q| := lt_of_lt_of_le (zpow_pos (by norm_num) e) h1
  have a : e ≤ Int.log 2 |q| := by
    apply (Int.zpow_le_iff_le_log (b := 2) (by norm_num) hpos).mp
    simpa using h1
  have b : Int.log 2 |q| < e + 1 := by
    apply (Int.lt_zpow_iff_log_lt (b := 2) (by norm_num) hpos).mp
    simpa using h2
  omega

/-- Rounding to binary32 of a number in the binade of `2^e` that lies within less
than half a unit in the last place of `m * 2^(e-23)`. -/
theorem f32_eq_of_near (q : ℚ) (e m : ℤ) (h1 : (2 : ℚ) ^ e ≤ |q|) (h2 : |q| < (2 : ℚ) ^ (e + 1))
    (h3 : |q / (2 : ℚ) ^ (e - 23) - m| < 1 / 2) : f32 q = (m : ℚ) * (2 : ℚ) ^ (e - 23) := by
  have hpos : 0 < |q| := lt_of_lt_of_le (zpow_pos (by norm_num) e) h1
  have hq : q ≠ 0 := abs_pos.mp hpos
  unfold f32
  rw [if_neg hq, log_eq_of_bounds q e h1 h2, round_even_eq_of_near _ m h3]

/-- Rounding to binary32 has relative error at most `2^-24`. -/
theorem f32_err (q : ℚ) : |f32 q - q| ≤ |q| / 16777216 := by
  by_cases hq : q = 0
  · subst hq
    simp [f32]
  have hpos : 0 < |q| := abs_pos.mpr hq
  have hu : (0 : ℚ) < (2 : ℚ) ^ (Int.log 2 |q| - 23) := zpow_pos (by norm_num) _
  have hlog := Int.zpow_log_le_self (b := 2) (r := |q|) (by norm_num) hpos
  have hlog2 : (2 : ℚ) ^ Int.log 2 |q| ≤ |q| := by simpa using hlog
  have herr := round_even_err (q / (2 : ℚ) ^ (Int.log 2 |q| - 23))
  have hsplit : (2 : ℚ) ^ Int.log 2 |q| = (2 : ℚ) ^ (Int.log 2 |q| - 23) * 8388608 := by
    rw [zpow_sub₀ (by norm_num : (2 : ℚ) ≠ 0)]
    norm_num
  have heq : f32 q - q = ((round_even (q / (2 : ℚ) ^ (Int.log 2 |q| - 23)) : ℚ)
      - q / (2 : ℚ) ^ (Int.log 2 |q| - 23)) * (2 : ℚ) ^ (Int.log 2 |q| - 23) := by
    unfold f32
    rw [if_neg hq]
    field_simp
  rw [heq, abs_mul, abs_of_pos hu]
  have : |(round_even (q / (2 : ℚ) ^ (Int.log 2 |q| - 23)) : ℚ)
      - q / (2 : ℚ) ^ (Int.log 2 |q| - 23)| * (2 : ℚ) ^ (Int.log 2 |q| - 23)
      ≤ 1 / 2 * (2 : ℚ) ^ (Int.log 2 |q| - 23) :=
    mul_le_mul_of_nonneg_right herr (le_of_lt hu)
  rw [hsplit] at hlog2
  linarith

theorem f32_pos (q : ℚ) (hq : 0 < q) : 0 < f32 q := by
  have h := f32_err q
  rw [abs_of_pos hq, abs_le] at h
  linarith [h.1]

theorem f32_neg (q : ℚ) (hq : q < 0) : f32 q < 0 := by
  have h := f32_err q
  rw [abs_of_neg hq, abs_le] at h
  linarith [h.2]

theorem f32_nonneg (q : ℚ) (hq : 0 ≤ q) : 0 ≤ f32 q := by
  rcases eq_or_lt_of_le hq with h | h
  · rw [← h, f32_zero]
  · exact le_of_lt (f32_pos q h)

/-- The sign test of a rounded value is the sign test of the value. -/
theorem f32_nonneg_iff (q : ℚ) : 0 ≤ f32 q ↔ 0 ≤ q := by
  constructor
  · intro h
    by_contra hn
    have := f32_neg q (not_le.mp hn)
    linarith
  · exact f32_nonneg q

/-! ## Binary32 rounding: operations that are exact -/

/-- The result of rounding a positive number to binary32 is a normalised binary32
number: a significand of 24 bits times a power of two. -/
theorem f32_repr_pos (q : ℚ) (hq : 0 < q) :
    ∃ m k : ℤ, 8388608 ≤ m ∧ m < 16777216 ∧ f32 q = (m : ℚ) * (2 : ℚ) ^ k := by
  have hq0 : q ≠ 0 := ne_of_gt hq
  have habs : |q| = q := abs_of_pos hq
  have h2 : (2 : ℚ) ≠ 0 := by norm_num
  have hu : (0 : ℚ) < (2 : ℚ) ^ (Int.log 2 |q| - 23) := zpow_pos (by norm_num) _
  have hlo : (2 : ℚ) ^ Int.log 2 |q| ≤ |q| := by
    have := Int.zpow_log_le_self (b := 2) (r := |q|) (by norm_num) (abs_pos.mpr hq0)
    simpa using this
  have hhi : |q| < (2 : ℚ) ^ (Int.log 2 |q| + 1) := by
    have := Int.lt_zpow_succ_log_self (b := 2) (by norm_num) |q|
    simpa using this
  have hs1 : (2 : ℚ) ^ Int.log 2 |q| = (2 : ℚ) ^ (Int.log 2 |q| - 23) * 8388608 := by
    rw [zpow_sub₀ h2]
    norm_num
  have hs2 : (2 : ℚ) ^ (Int.log 2 |q| + 1) = (2 : ℚ) ^ (Int.log 2 |q| - 23) * 16777216 := by
    rw [zpow_sub₀ h2, zpow_add₀ h2]
    norm_num
    ring
  have ht1 : (8388608 : ℚ) ≤ q / (2 : ℚ) ^ (Int.log 2 |q| - 23) := by
    rw [le_div_iff₀ hu]
    linarith
  have ht2 : q / (2 : ℚ) ^ (Int.log 2 |q| - 23) < 16777216 := by
    rw [div_lt_iff₀ hu]
    linarith
  have herr := round_even_err (q / (2 : ℚ) ^ (Int.log 2 |q| - 23))
  rw [abs_le] at herr
  have hr1 : 8388608 ≤ round_even (q / (2 : ℚ) ^ (Int.log 2 |q| - 23)) := by
    have : ((8388608 - 1 : ℤ) : ℚ) < (round_even (q / (2 : ℚ) ^ (Int.log 2 |q| - 23)) : ℚ) := by
      push_cast
      linarith [herr.1]
    have := Int.cast_lt.mp this
    omega
  have hr2 : round_even (q / (2 : ℚ) ^ (Int.log 2 |q| - 23)) ≤ 16777216 := by
    have : (round_even (q / (2 : ℚ) ^ (Int.log 2 |q| - 23)) : ℚ) < ((16777216 + 1 : ℤ) : ℚ) := by
      push_cast
      linarith [herr.2]
    have := Int.cast_lt.mp this
    omega
  have hf : f32 q = (round_even (q / (2 : ℚ) ^ (Int.log 2 |q| - 23)) : ℚ)
      * (2 : ℚ) ^ (Int.log 2 |q| - 23) := by
    unfold f32
    rw [if_neg hq0]
  rcases Nat.lt_or_ge (round_even (q / (2 : ℚ) ^ (Int.log 2 |q| - 23))).toNat 16777216 with h | h
  · exact ⟨_, _, hr1, by omega, hf⟩
  · have hr : round_even (q / (2 : ℚ) ^ (Int.log 2 |q| - 23)) = 16777216 := by omega
    refine ⟨8388608, Int.log 2 |q| - 23 + 1, by norm_num, by norm_num, ?_⟩
    rw [hf, hr, zpow_add₀ h2]
    norm_num
    ring

/-- A normalised binary32 number below `2^24` is a multiple of a power of two not
larger than 1, and subtracting it from a natural number not larger than its double
is exact. -/
theorem f32_nat_sub_exact (a : ℕ) (x : ℚ) (m k : ℤ) (hm1 : 8388608 ≤ m) (hm2 : m < 16777216)
    (hx : x = (m : ℚ) * (2 : ℚ) ^ k) (hx24 : x < 16777216) (ha : (a : ℚ) ≤ 2 * x) :
    f32 ((a : ℚ) - x) = (a : ℚ) - x := by
  have h2 : (2 : ℚ) ≠ 0 := by norm_num
  have hpow : (0 : ℚ) < (2 : ℚ) ^ k := zpow_pos (by norm_num) k
  have hk : k ≤ 0 := by
    have h1 : (8388608 : ℚ) * (2 : ℚ) ^ k ≤ (m : ℚ) * (2 : ℚ) ^ k := by
      have : ((8388608 : ℤ) : ℚ) ≤ (m : ℚ) := by exact_mod_cast hm1
      push_cast at this
      exact mul_le_mul_of_nonneg_right this (le_of_lt hpow)
    have h3 : (2 : ℚ) ^ k < (2 : ℚ) ^ (1 : ℤ) := by
      rw [zpow_one]
      rw [← hx] at h1
      linarith
    have := (zpow_lt_zpow_iff_right₀ (by norm_num : (1 : ℚ) < 2)).mp h3
    omega
  obtain ⟨d, hd⟩ : ∃ d : ℕ, (d : ℤ) = -k := ⟨(-k).toNat, Int.toNat_of_nonneg (by omega)⟩
  have hone : (2 : ℚ) ^ d * (2 : ℚ) ^ k = 1 := by
    rw [← zpow_natCast, hd, ← zpow_add₀ h2]
    simp
  have hrep : (a : ℚ) - x = (((a : ℤ) * 2 ^ d - m : ℤ) : ℚ) * (2 : ℚ) ^ k := by
    push_cast
    rw [sub_mul, mul_assoc, hone, hx]
    ring
  have hbound : |(a : ℤ) * 2 ^ d - m| < 16777216 := by
    have h4 : |(a : ℚ) - x| ≤ x := by
      rw [abs_le]
      have : (0 : ℚ) ≤ a := by positivity
      constructor <;> linarith
    rw [hrep, abs_mul, abs_of_pos hpow] at h4
    have h5 : |(((a : ℤ) * 2 ^ d - m : ℤ) : ℚ)| * (2 : ℚ) ^ k ≤ (m : ℚ) * (2 : ℚ) ^ k := by
      rw [← hx]
      exact h4
    have h6 : |(((a : ℤ) * 2 ^ d - m : ℤ) : ℚ)| ≤ (m : ℚ) := le_of_mul_le_mul_right h5 hpow
    have h7 : ((|(a : ℤ) * 2 ^ d - m| : ℤ) : ℚ) ≤ (m : ℚ) := by
      rw [Int.cast_abs]
      exact h6
    have h8 : |(a : ℤ) * 2 ^ d - m| ≤ m := by exact_mod_cast h7
    omega
  rw [hrep]
  exact f32_of_dyadic _ k hbound

/-- What the tiling loops compute with a tile size that came out of a rounding: the
tile size, its half and its double are binary32 numbers, and so is its difference
from a natural number not larger than its double. -/
theorem f32_exact_ops (q : ℚ) (hq : 0 < q) :
    f32 (f32 q) = f32 q ∧ f32 (f32 q / 2) = f32 q / 2 ∧ f32 (2 * f32 q) = 2 * f32 q ∧
    (∀ a : ℕ, f32 q < 16777216 → (a : ℚ) ≤ 2 * f32 q → f32 ((a : ℚ) - f32 q) = (a : ℚ) - f32 q) := by
  obtain ⟨m, k, hm1, hm2, hx⟩ := f32_repr_pos q hq
  have h2 : (2 : ℚ) ≠ 0 := by norm_num
  have hm : |m| < 16777216 := by
    rw [abs_of_nonneg (by omega)]
    exact hm2
  refine ⟨?_, ?_, ?_, ?_⟩
  · rw [hx]
    exact f32_of_dyadic m k hm
  · have h := f32_of_dyadic m (k - 1) hm
    have e : (m : ℚ) * (2 : ℚ) ^ (k - 1) = (m : ℚ) * (2 : ℚ) ^ k / 2 := by
      rw [zpow_sub₀ h2]
      simp
      ring
    rw [e] at h
    rw [hx]
    exact h
  · have h := f32_of_dyadic m (k + 1) hm
    have e : (m : ℚ) * (2 : ℚ) ^ (k + 1) = 2 * ((m : ℚ) * (2 : ℚ) ^ k) := by
      rw [zpow_add₀ h2]
      simp
      ring
    rw [e] at h
    rw [hx]
    exact h
  · intro a h24 ha
    exact f32_nat_sub_exact a (f32 q) m k hm1 hm2 hx h24 ha
/-! ## Tiling: the calls made, from the loop tests -/

/-- With VR off the parallax offset is zero. -/
theorem off3d_of_not_enabled {C : Type} (dir : Director C) (multiplier : ℚ) (text : Bool)
    (hvr : dir.oculus_enabled = false) : off3d dir multiplier text = (0, 0) := by
  simp [off3d, hvr]

/-- When the outer test first fails at index `ni` and the inner test at index `nj`,
`render_image` makes the calls of the loop bodies at the pairs `(i, j)` with
`i < ni` and `j < nj`, row by row. -/
theorem render_image_tiles_of_tests {C : Type} (dir : Director C) (image : Image)
    (multiplier : ℚ) (fuel ni nj : Nat) (x y : ℚ)
    (hx : f32 (f32 (image.width : ℚ) * image_scale dir image) = x)
    (hy : f32 (f32 (image.height : ℚ) * image_scale dir image) = y)
    (hi : ∀ m, m < ni → loop_test (dir._width / 2) x m = true)
    (hni : loop_test (dir._width / 2) x ni = false)
    (hj : ∀ m, m < nj → loop_test (dir._height / 2) y m = true)
    (hnj : loop_test (dir._height / 2) y nj = false)
    (hfi : ni < fuel) (hfj : nj < fuel) :
    render_image_tiles dir image multiplier fuel =
      some ((List.range' 0 ni).flatMap (fun i =>
        (List.range' 0 nj).flatMap (fun j =>
          tile_body dir (off3d dir multiplier false).1 x y i j))) := by
  have hrow : ∀ i, tile_loop_j dir (off3d dir multiplier false).1 x y i fuel =
      some ((List.range' 0 (nj - 0)).flatMap (fun j =>
        tile_body dir (off3d dir multiplier false).1 x y i j)) := by
    intro i
    unfold tile_loop_j
    exact for_loop_eq _ _ _ nj fuel 0 (Nat.zero_le _) (by omega)
      (fun m _ hm => ⟨hj m hm, rfl⟩) hnj
  unfold render_image_tiles
  simp only [hx, hy]
  unfold tile_loop_i
  have h := for_loop_eq (loop_test (dir._width / 2) x)
    (fun i => tile_loop_j dir (off3d dir multiplier false).1 x y i fuel)
    (fun i => (List.range' 0 (nj - 0)).flatMap (fun j =>
        tile_body dir (off3d dir multiplier false).1 x y i j)) ni fuel 0 (Nat.zero_le _)
    (by omega) (fun m _ hm => ⟨hi m hm, hrow m⟩) hni
  simpa using h

/-! ## Tiling a square image into a square viewport -/

/-- The tile size of a square image in a square viewport, VR off: the same on both
axes, the rounding of a positive number, within 3/4 of the viewport side, and the
viewport side itself when the image has that side. -/
theorem square_tile_size {C : Type} (dir : Director C) (image : Image)
    (hW : 0 < dir._width) (hWb : dir._width ≤ 4194304)
    (hsq : dir._height = dir._width) (hvr : dir.oculus_enabled = false)
    (hs : 0 < image.width) (hsb : image.width < 16777216)
    (hisq : image.height = image.width) :
    f32 (f32 (image.height : ℚ) * image_scale dir image)
      = f32 (f32 (image.width : ℚ) * image_scale dir image) ∧
    (∃ q : ℚ, 0 < q ∧ f32 (f32 (image.width : ℚ) * image_scale dir image) = f32 q) ∧
    |f32 (f32 (image.width : ℚ) * image_scale dir image) - dir._width| ≤ 3 / 4 ∧
    (image.width = dir._width →
      f32 (f32 (image.width : ℚ) * image_scale dir image) = dir._width) := by
  have hn0 : (0 : ℚ) < image.width := by exact_mod_cast hs
  have hW0 : (0 : ℚ) < dir._width := by exact_mod_cast hW
  have hWq : (dir._width : ℚ) ≤ 4194304 := by exact_mod_cast hWb
  have fW : f32 (dir._width : ℚ) = dir._width := f32_natCast _ (by omega)
  have fn : f32 (image.width : ℚ) = image.width := f32_natCast _ hsb
  have hscale : image_scale dir image = f32 ((dir._width : ℚ) / image.width) := by
    simp [image_scale, hvr, hsq, hisq, fW, fn]
  have hpos : 0 < (dir._width : ℚ) / image.width := div_pos hW0 hn0
  have hspos : 0 < f32 ((dir._width : ℚ) / image.width) := f32_pos _ hpos
  have hqpos : 0 < (image.width : ℚ) * f32 ((dir._width : ℚ) / image.width) :=
    mul_pos hn0 hspos
  have e1 := f32_err ((dir._width : ℚ) / image.width)
  rw [abs_of_pos hpos] at e1
  have e1b : |(image.width : ℚ) * f32 ((dir._width : ℚ) / image.width) - dir._width|
      ≤ (dir._width : ℚ) / 16777216 := by
    have hfac : (image.width : ℚ) * f32 ((dir._width : ℚ) / image.width) - dir._width
        = (image.width : ℚ) * (f32 ((dir._width : ℚ) / image.width)
            - (dir._width : ℚ) / image.width) := by
      field_simp
      ring
    rw [hfac, abs_mul, abs_of_pos hn0]
    calc (image.width : ℚ) * |f32 ((dir._width : ℚ) / image.width)
            - (dir._width : ℚ) / image.width|
        ≤ (image.width : ℚ) * ((dir._width : ℚ) / image.width / 16777216) :=
          mul_le_mul_of_nonneg_left e1 (le_of_lt hn0)
      _ = (dir._width : ℚ) / 16777216 := by
        field_simp
        ring
  have e2 := f32_err ((image.width : ℚ) * f32 ((dir._width : ℚ) / image.width))
  rw [abs_of_pos hqpos] at e2
  rw [hisq, hscale, fn]
  refine ⟨rfl, ⟨_, hqpos, rfl⟩, ?_, ?_⟩
  · rw [abs_le] at e1b e2 ⊢
    constructor <;> linarith [e1b.1, e1b.2, e2.1, e2.2]
  · intro h
    have h1 : (image.width : ℚ) = dir._width := by exact_mod_cast h
    rw [h1, div_self (ne_of_gt hW0), f32_one, mul_one, fW]

/-- The loop tests for a tile size that is a positive binary32 number `x` below
`2^24`: the test holds at index 0; at index 1 it holds exactly when `x` is at most twice
the truncated half side; at index 2 it fails when `x` exceeds the truncated half. -/
theorem loop_test_tile (half : Nat) (q : ℚ) (hq : 0 < q) (hhalf : half < 16777216)
    (h24 : f32 q < 16777216) :
    loop_test half (f32 q) 0 = true ∧
    ((half : ℚ) ≤ 2 * f32 q → (loop_test half (f32 q) 1 = true ↔ f32 q ≤ 2 * (half : ℚ))) ∧
    ((half : ℚ) < f32 q → loop_test half (f32 q) 2 = false) := by
  obtain ⟨x1, x2, x3, x4⟩ := f32_exact_ops q hq
  have hx : 0 < f32 q := f32_pos q hq
  have fh : f32 (half : ℚ) = half := f32_natCast half hhalf
  have hh : (0 : ℚ) ≤ half := by positivity
  refine ⟨?_, ?_, ?_⟩
  · unfold loop_test
    rw [decide_eq_true_iff, f32_nonneg_iff, x2]
    simp only [Nat.cast_zero, f32_zero, zero_mul, sub_zero, fh]
    linarith
  · intro ha
    unfold loop_test
    rw [decide_eq_true_iff, f32_nonneg_iff, x2, fh]
    have f1 : f32 ((1 : ℕ) : ℚ) = 1 := by
      rw [Nat.cast_one]
      exact f32_one
    rw [f1, one_mul, x1, x4 half h24 ha]
    constructor <;> intro h <;> linarith
  · intro ha
    unfold loop_test
    rw [decide_eq_false_iff_not, f32_nonneg_iff, x2, fh]
    have f2 : f32 ((2 : ℕ) : ℚ) = 2 := by
      have := f32_natCast 2 (by norm_num)
      simpa using this
    rw [f2, x3]
    have hneg : (half : ℚ) - 2 * f32 q < 0 := by linarith
    have e := f32_err ((half : ℚ) - 2 * f32 q)
    rw [abs_of_neg hneg, abs_le] at e
    linarith [e.2]

/-- The calls of one loop body, as tiles relative to the centred rectangle: the base
tile, then the horizontal mirror when `i != 0`, the vertical mirror when `j != 0`,
the diagonal mirror when both are nonzero, all with the flips `i % 2 != 0`,
`j % 2 != 0`. -/
theorem tile_body_eq {C : Type} (dir : Director C) (offx3d x y : ℚ) (i j : Nat) :
    tile_body dir offx3d x y i j =
      [tile_at dir offx3d x y i j false false (i % 2 != 0) (j % 2 != 0)]
      ++ (if i ≠ 0 then [tile_at dir offx3d x y i j true false (i % 2 != 0) (j % 2 != 0)]
          else [])
      ++ (if j ≠ 0 then [tile_at dir offx3d x y i j false true (i % 2 != 0) (j % 2 != 0)]
          else [])
      ++ (if i ≠ 0 ∧ j ≠ 0 then
            [tile_at dir offx3d x y i j true true (i % 2 != 0) (j % 2 != 0)]
          else []) := by
  rfl

/-- The explicit rectangles of the nine tiles when the tile size is exactly an even
viewport side. -/
theorem square_tiles_exact_even {C : Type} (dir : Director C) (hWb : dir._width ≤ 4194304)
    (hsq : dir._height = dir._width) (heven : dir._width % 2 = 0) :
    [tile_at dir 0 dir._width dir._width 0 0 false false false false,
     tile_at dir 0 dir._width dir._width 0 1 false false false true,
     tile_at dir 0 dir._width dir._width 0 1 false true false true,
     tile_at dir 0 dir._width dir._width 1 0 false false true false,
     tile_at dir 0 dir._width dir._width 1 0 true false true false,
     tile_at dir 0 dir._width dir._width 1 1 false false true true,
     tile_at dir 0 dir._width dir._width 1 1 true false true true,
     tile_at dir 0 dir._width dir._width 1 1 false true true true,
     tile_at dir 0 dir._width dir._width 1 1 true true true true] =
    [⟨0, 0, dir._width, dir._width, false, false⟩,
     ⟨0, -dir._width, dir._width, 0, false, true⟩,
     ⟨0, dir._width, dir._width, 2 * dir._width, false, true⟩,
     ⟨-dir._width, 0, 0, dir._width, true, false⟩,
     ⟨dir._width, 0, 2 * dir._width, dir._width, true, false⟩,
     ⟨-dir._width, -dir._width, 0, 0, true, true⟩,
     ⟨dir._width, -dir._width, 2 * dir._width, 0, true, true⟩,
     ⟨-dir._width, dir._width, 0, 2 * dir._width, true, true⟩,
     ⟨dir._width, dir._width, 2 * dir._width, 2 * dir._width, true, true⟩] := by
  obtain ⟨h, hh⟩ : ∃ h, dir._width = 2 * h := ⟨dir._width / 2, by omega⟩
  have hdiv : dir._width / 2 = h := by omega
  have hc : (dir._width : ℚ) = 2 * h := by exact_mod_cast hh
  have f1 : f32 (h : ℚ) = h := f32_natCast h (by omega)
  have f2 : f32 (2 * (h : ℚ)) = 2 * h := by
    have := f32_natCast (2 * h) (by omega)
    simpa using this
  have f3 : f32 (-(2 * (h : ℚ))) = -(2 * h) := by
    have := f32_neg_natCast (2 * h) (by omega)
    simpa using this
  have f4 : f32 (2 * (2 * (h : ℚ))) = 2 * (2 * h) := by
    have := f32_natCast (2 * (2 * h)) (by omega)
    simpa using this
  have hrect : centred_rect dir 0 (2 * (h : ℚ)) (2 * (h : ℚ))
      = ((0 : ℚ), (0 : ℚ), 2 * (h : ℚ), 2 * (h : ℚ)) := by
    simp [centred_rect, hsq, hdiv, f1, f2, f32_zero, ← two_mul]
  have m0 : ∀ (a : ℚ) (b : Bool), moved a 0 (2 * (h : ℚ)) b = f32 a := by
    intro a b
    cases b <;> simp [moved, f32_zero]
  have m1 : ∀ (a : ℚ), moved a 1 (2 * (h : ℚ)) true = f32 (a + 2 * h) := by
    intro a
    simp [moved, f32_one, f2]
  have m2 : ∀ (a : ℚ), moved a 1 (2 * (h : ℚ)) false = f32 (a - 2 * h) := by
    intro a
    simp [moved, f32_one, f2]
  simp only [tile_at, hc, hrect, m0, m1, m2]
  simp [f32_zero, f2, f3, f4, ← two_mul]

/-- The explicit rectangle of the single tile when the tile size is exactly an odd
viewport side. -/
theorem square_tile_exact_odd {C : Type} (dir : Director C) (hWb : dir._width ≤ 4194304)
    (hsq : dir._height = dir._width) (hodd : dir._width % 2 = 1) :
    tile_at dir 0 dir._width dir._width 0 0 false false false false =
      ⟨-1 / 2, -1 / 2, dir._width - 1 / 2, dir._width - 1 / 2, false, false⟩ := by
  obtain ⟨h, hh⟩ : ∃ h, dir._width = 2 * h + 1 := ⟨dir._width / 2, by omega⟩
  have hdiv : dir._width / 2 = h := by omega
  have hc : (dir._width : ℚ) = 2 * h + 1 := by exact_mod_cast hh
  have f1 : f32 (h : ℚ) = h := f32_natCast h (by omega)
  have f2 : f32 ((2 * (h : ℚ) + 1) / 2) = (2 * h + 1) / 2 := by
    have := f32_natCast_half (2 * h + 1) (by omega)
    simpa using this
  have f3 : f32 ((h : ℚ) - (2 * h + 1) / 2) = -1 / 2 := by
    have := f32_neg_natCast_half 1 (by norm_num)
    have e : (h : ℚ) - (2 * h + 1) / 2 = -(((1 : ℕ) : ℚ) / 2) := by
      push_cast
      ring
    rw [e, this]
    push_cast
    ring
  have f4 : f32 ((h : ℚ) + (2 * h + 1) / 2) = 2 * h + 1 - 1 / 2 := by
    have := f32_natCast_half (4 * h + 1) (by omega)
    have e : (h : ℚ) + (2 * h + 1) / 2 = ((4 * h + 1 : ℕ) : ℚ) / 2 := by
      push_cast
      ring
    rw [e, this]
    push_cast
    ring
  have f5 : f32 (-1 / 2 : ℚ) = -1 / 2 := by
    have := f32_neg_natCast_half 1 (by norm_num)
    have e : (-1 / 2 : ℚ) = -(((1 : ℕ) : ℚ) / 2) := by
      push_cast
      ring
    rw [e, this]
  have f6 : f32 (2 * (h : ℚ) + 1 - 1 / 2) = 2 * h + 1 - 1 / 2 := by
    have := f32_natCast_half (4 * h + 1) (by omega)
    have e : 2 * (h : ℚ) + 1 - 1 / 2 = ((4 * h + 1 : ℕ) : ℚ) / 2 := by
      push_cast
      ring
    rw [e, this]
  have hrect : centred_rect dir 0 (2 * (h : ℚ) + 1) (2 * (h : ℚ) + 1)
      = ((-1 / 2 : ℚ), (-1 / 2 : ℚ), 2 * (h : ℚ) + 1 - 1 / 2, 2 * (h : ℚ) + 1 - 1 / 2) := by
    simp only [centred_rect, hsq, hdiv, zero_add, f1, f2, f3, f4]
  have m0 : ∀ (a : ℚ) (b : Bool), moved a 0 (2 * (h : ℚ) + 1) b = f32 a := by
    intro a b
    cases b <;> simp [moved, f32_zero]
  simp only [tile_at, hc, hrect, m0, f5, f6]

/-- A square image in a square viewport, VR off, when the side is odd or the tile
size exceeds the side: the loop tests fail at index 1 and one call is made. -/
theorem square_tiles_one {C : Type} (dir : Director C) (image : Image) (multiplier : ℚ)
    (fuel : Nat) (x : ℚ) (hx : x = f32 (f32 (image.width : ℚ) * image_scale dir image))
    (hW : 0 < dir._width) (hWb : dir._width ≤ 4194304)
    (hsq : dir._height = dir._width) (hvr : dir.oculus_enabled = false)
    (hs : 0 < image.width) (hsb : image.width < 16777216)
    (hisq : image.height = image.width) (hfuel : 2 ≤ fuel)
    (hcase : dir._width % 2 = 1 ∨ (dir._width : ℚ) < x) :
    loop_test (dir._width / 2) x 1 = false ∧
    render_image_tiles dir image multiplier fuel =
      some [tile_at dir 0 x x 0 0 false false false false] := by
  obtain ⟨hy, ⟨q, hq, hxq⟩, herr, -⟩ := square_tile_size dir image hW hWb hsq hvr hs hsb hisq
  rw [← hx] at hy hxq herr
  rw [abs_le] at herr
  have hWq : (dir._width : ℚ) ≤ 4194304 := by exact_mod_cast hWb
  have hW1 : (1 : ℚ) ≤ dir._width := by exact_mod_cast hW
  have hhalf : ((dir._width / 2 : ℕ) : ℚ) * 2 ≤ dir._width := by
    exact_mod_cast Nat.div_mul_le_self dir._width 2
  have hh0 : (0 : ℚ) ≤ ((dir._width / 2 : ℕ) : ℚ) := by positivity
  obtain ⟨t0, t1, -⟩ := loop_test_tile (dir._width / 2) q hq (by omega)
    (by rw [← hxq]; linarith [herr.2])
  rw [← hxq] at t0 t1
  have ht1 : loop_test (dir._width / 2) x 1 = false := by
    rw [← Bool.not_eq_true, t1 (by linarith [herr.1])]
    rcases hcase with hodd | hgt
    · have hcast : (dir._width : ℚ) = ((dir._width / 2 : ℕ) : ℚ) * 2 + 1 := by
        have : dir._width = dir._width / 2 * 2 + 1 := by omega
        exact_mod_cast this
      linarith [herr.1]
    · linarith
  refine ⟨ht1, ?_⟩
  rw [render_image_tiles_of_tests dir image multiplier fuel 1 1 x x hx.symm (by rw [hy, hx])
    (by
      intro m hm
      have : m = 0 := by omega
      subst this
      exact t0)
    ht1
    (by
      intro m hm
      have : m = 0 := by omega
      subst this
      rw [hsq]
      exact t0)
    (by rw [hsq]; exact ht1) (by omega) (by omega)]
  rw [off3d_of_not_enabled dir multiplier false hvr]
  simp [List.range', tile_body_eq]

/-- A square image in a square viewport of even side, VR off, when the tile size
does not exceed the side: the loop tests hold at index 1 and fail at index 2, and
nine calls are made. -/
theorem square_tiles_nine {C : Type} (dir : Director C) (image : Image) (multiplier : ℚ)
    (fuel : Nat) (x : ℚ) (hx : x = f32 (f32 (image.width : ℚ) * image_scale dir image))
    (hW : 0 < dir._width) (hWb : dir._width ≤ 4194304)
    (hsq : dir._height = dir._width) (hvr : dir.oculus_enabled = false)
    (hs : 0 < image.width) (hsb : image.width < 16777216)
    (hisq : image.height = image.width) (hfuel : 3 ≤ fuel)
    (heven : dir._width % 2 = 0) (hle : x ≤ (dir._width : ℚ)) :
    loop_test (dir._width / 2) x 1 = true ∧ loop_test (dir._width / 2) x 2 = false ∧
    render_image_tiles dir image multiplier fuel =
      some [tile_at dir 0 x x 0 0 false false false false,
            tile_at dir 0 x x 0 1 false false false true,
            tile_at dir 0 x x 0 1 false true false true,
            tile_at dir 0 x x 1 0 false false true false,
            tile_at dir 0 x x 1 0 true false true false,
            tile_at dir 0 x x 1 1 false false true true,
            tile_at dir 0 x x 1 1 true false true true,
            tile_at dir 0 x x 1 1 false true true true,
            tile_at dir 0 x x 1 1 true true true true] := by
  obtain ⟨hy, ⟨q, hq, hxq⟩, herr, -⟩ := square_tile_size dir image hW hWb hsq hvr hs hsb hisq
  rw [← hx] at hy hxq herr
  rw [abs_le] at herr
  have hWq : (dir._width : ℚ) ≤ 4194304 := by exact_mod_cast hWb
  have hW2 : (2 : ℚ) ≤ dir._width := by
    have : 2 ≤ dir._width := by omega
    exact_mod_cast this
  have hcast : (dir._width : ℚ) = ((dir._width / 2 : ℕ) : ℚ) * 2 := by
    have : dir._width = dir._width / 2 * 2 := by omega
    exact_mod_cast this
  obtain ⟨t0, t1, t2⟩ := loop_test_tile (dir._width / 2) q hq (by omega)
    (by rw [← hxq]; linarith [herr.2])
  rw [← hxq] at t0 t1 t2
  have ht1 : loop_test (dir._width / 2) x 1 = true := by
    rw [t1 (by linarith [herr.1])]
    linarith
  have ht2 : loop_test (dir._width / 2) x 2 = false := t2 (by linarith [herr.1])
  refine ⟨ht1, ht2, ?_⟩
  rw [render_image_tiles_of_tests dir image multiplier fuel 2 2 x x hx.symm (by rw [hy, hx])
    (by
      intro m hm
      have : m = 0 ∨ m = 1 := by omega
      rcases this with rfl | rfl
      · exact t0
      · exact ht1)
    ht2
    (by
      intro m hm
      have : m = 0 ∨ m = 1 := by omega
      rcases this with rfl | rfl
      · rw [hsq]
        exact t0
      · rw [hsq]
        exact ht1)
    (by rw [hsq]; exact ht2) (by omega) (by omega)]
  rw [off3d_of_not_enabled dir multiplier false hvr]
  simp [List.range', tile_body_eq]

/-- Rounding to binary32 of a positive number, from its binade and the integer
nearest to it in units of the last place. -/
theorem f32_eval (q : ℚ) (e m : ℤ) (h1 : (2 : ℚ) ^ e ≤ q) (h2 : q < (2 : ℚ) ^ (e + 1))
    (h3 : (m : ℚ) - 1 / 2 < q / (2 : ℚ) ^ (e - 23)) (h4 : q / (2 : ℚ) ^ (e - 23) < (m : ℚ) + 1 / 2) :
    f32 q = (m : ℚ) * (2 : ℚ) ^ (e - 23) := by
  have hq : 0 < q := lt_of_lt_of_le (zpow_pos (by norm_num) e) h1
  apply f32_eq_of_near q e m
  · rw [abs_of_pos hq]
    exact h1
  · rw [abs_of_pos hq]
    exact h2
  · rw [abs_lt]
    constructor <;> linarith

/-- A 39 x 39 image in a 640 x 640 viewport: the scale `640 / 39` is rounded to
`8603701 / 2^19` and the tile size comes out as `640 + 2^-14`, above the side. -/
theorem tile_size_640_39 :
    f32 (f32 ((39 : ℕ) : ℚ) * image_scale (window_director 640 640) ⟨0, 39, 39⟩)
      = 640 + 1 / 16384 := by
  have e1 : f32 ((39 : ℕ) : ℚ) = 39 := by
    have := f32_natCast 39 (by norm_num)
    simpa using this
  have e2 : f32 ((640 : ℕ) : ℚ) = 640 := by
    have := f32_natCast 640 (by norm_num)
    simpa using this
  have e3 : f32 ((640 : ℚ) / 39) = 8603701 / 524288 := by
    have := f32_eval (640 / 39) 4 8603701 (by norm_num) (by norm_num) (by norm_num)
      (by norm_num)
    rw [this]
    norm_num
  have e4 : f32 ((39 : ℚ) * (8603701 / 524288)) = 640 + 1 / 16384 := by
    have := f32_eval (39 * (8603701 / 524288)) 9 10485761 (by norm_num) (by norm_num)
      (by norm_num) (by norm_num)
    rw [this]
    norm_num
  have hs : image_scale (window_director 640 640) ⟨0, 39, 39⟩ = 8603701 / 524288 := by
    simp only [image_scale, window_director, e1, e2, e3]
    simp
  rw [hs, e1, e4]

/-- C7, as stated, fails for an even side: a 512 x 512 image in a 512 x 512 viewport
(scale 1, VR off) makes nine calls of `render_texture`, not one; both loop tests
hold at index 1 (with equality) and fail only at index 2. Every value is a binary32
number, so no rounding takes place. -/
theorem square_tiling_counterexample :
    render_image_tiles (window_director 512 512) ⟨0, 512, 512⟩ 0 10 =
      some [⟨0, 0, 512, 512, false, false⟩,
            ⟨0, -512, 512, 0, false, true⟩, ⟨0, 512, 512, 1024, false, true⟩,
            ⟨-512, 0, 0, 512, true, false⟩, ⟨512, 0, 1024, 512, true, false⟩,
            ⟨-512, -512, 0, 0, true, true⟩, ⟨512, -512, 1024, 0, true, true⟩,
            ⟨-512, 512, 0, 1024, true, true⟩, ⟨512, 512, 1024, 1024, true, true⟩] ∧
    loop_test (512 / 2) 512 1 = true ∧ loop_test (512 / 2) 512 2 = false := by
  have hx := (square_tile_size (window_director 512 512) ⟨0, 512, 512⟩ (by decide) (by decide)
    rfl rfl (by decide) (by decide) rfl).2.2.2 rfl
  have h := square_tiles_nine (window_director 512 512) ⟨0, 512, 512⟩ 0 10
    ((window_director 512 512)._width : ℚ) hx.symm (by decide) (by decide) rfl rfl (by decide)
    (by decide) rfl (by decide) (by decide) (le_refl _)
  rw [square_tiles_exact_even (window_director 512 512) (by decide) rfl (by decide)] at h
  obtain ⟨h1, h2, h3⟩ := h
  have hc : ((window_director 512 512)._width : ℚ) = 512 := by
    simp [window_director]
  have hd : (window_director 512 512)._width / 2 = 512 / 2 := rfl
  rw [hc] at h1 h2 h3
  rw [hd] at h1 h2
  refine ⟨?_, h1, h2⟩
  rw [h3]
  norm_num

/-- C7 (amended): a square image of side below `2^24` in a square viewport of side
`W`, `0 < W <= 2^22`, VR off, given fuel for three tests per loop; `x` is the tile
size as `render_image` computes it in binary32. The tile is square and `x` is within
3/4 of `W`, and is `W` itself when the image has side `W`. When `W` is odd, or `x`
exceeds `W`, both loop tests fail at index 1 and exactly one call of
`render_texture` is made, the unflipped `(0,0)` tile. When `W` is even and `x` does
not exceed `W`, the inclusive tests `>= 0` hold at index 1 and fail at index 2, and
exactly nine calls are made: the `(0,0)` tile and the eight tiles one tile size
away. When `x` is exactly `W` the single tile of an odd `W` is
`[-1/2, W - 1/2]` squared, and the nine tiles of an even `W` are the viewport and
its eight neighbours. -/
theorem square_image_tiling {C : Type} (dir : Director C) (image : Image) (multiplier : ℚ)
    (fuel : Nat) (x : ℚ) (hx : x = f32 (f32 (image.width : ℚ) * image_scale dir image))
    (hW : 0 < dir._width) (hWb : dir._width ≤ 4194304)
    (hsq : dir._height = dir._width) (hvr : dir.oculus_enabled = false)
    (hs : 0 < image.width) (hsb : image.width < 16777216)
    (hisq : image.height = image.width) (hfuel : 3 ≤ fuel) :
    (f32 (f32 (image.height : ℚ) * image_scale dir image) = x ∧
      |x - dir._width| ≤ 3 / 4 ∧ (image.width = dir._width → x = dir._width)) ∧
    (dir._width % 2 = 1 ∨ (dir._width : ℚ) < x →
      loop_test (dir._width / 2) x 1 = false ∧
      render_image_tiles dir image multiplier fuel =
        some [tile_at dir 0 x x 0 0 false false false false]) ∧
    (dir._width % 2 = 0 ∧ x ≤ (dir._width : ℚ) →
      loop_test (dir._width / 2) x 1 = true ∧ loop_test (dir._width / 2) x 2 = false ∧
      render_image_tiles dir image multiplier fuel =
        some [tile_at dir 0 x x 0 0 false false false false,
              tile_at dir 0 x x 0 1 false false false true,
              tile_at dir 0 x x 0 1 false true false true,
              tile_at dir 0 x x 1 0 false false true false,
              tile_at dir 0 x x 1 0 true false true false,
              tile_at dir 0 x x 1 1 false false true true,
              tile_at dir 0 x x 1 1 true false true true,
              tile_at dir 0 x x 1 1 false true true true,
              tile_at dir 0 x x 1 1 true true true true]) ∧
    (x = (dir._width : ℚ) →
      (dir._width % 2 = 1 →
        render_image_tiles dir image multiplier fuel =
          some [⟨-1 / 2, -1 / 2, dir._width - 1 / 2, dir._width - 1 / 2, false, false⟩]) ∧
      (dir._width % 2 = 0 →
        render_image_tiles dir image multiplier fuel =
          some [⟨0, 0, dir._width, dir._width, false, false⟩,
                ⟨0, -dir._width, dir._width, 0, false, true⟩,
                ⟨0, dir._width, dir._width, 2 * dir._width, false, true⟩,
                ⟨-dir._width, 0, 0, dir._width, true, false⟩,
                ⟨dir._width, 0, 2 * dir._width, dir._width, true, false⟩,
                ⟨-dir._width, -dir._width, 0, 0, true, true⟩,
                ⟨dir._width, -dir._width, 2 * dir._width, 0, true, true⟩,
                ⟨-dir._width, dir._width, 0, 2 * dir._width, true, true⟩,
                ⟨dir._width, dir._width, 2 * dir._width, 2 * dir._width, true, true⟩])) := by
  obtain ⟨hy, -, herr, hsame⟩ := square_tile_size dir image hW hWb hsq hvr hs hsb hisq
  rw [← hx] at hy herr hsame
  refine ⟨⟨hy, herr, hsame⟩, ?_, ?_, ?_⟩
  · intro hcase
    exact square_tiles_one dir image multiplier fuel x hx hW hWb hsq hvr hs hsb hisq
      (by omega) hcase
  · intro hcase
    exact square_tiles_nine dir image multiplier fuel x hx hW hWb hsq hvr hs hsb hisq hfuel
      hcase.1 hcase.2
  · intro hxW
    refine ⟨?_, ?_⟩
    · intro hodd
      rw [(square_tiles_one dir image multiplier fuel x hx hW hWb hsq hvr hs hsb hisq
        (by omega) (Or.inl hodd)).2, hxW, square_tile_exact_odd dir hWb hsq hodd]
    · intro heven
      rw [(square_tiles_nine dir image multiplier fuel x hx hW hWb hsq hvr hs hsb hisq hfuel
        heven (le_of_eq hxW)).2.2, hxW, square_tiles_exact_even dir hWb hsq heven]

/-- A 39 x 39 image in a 640 x 640 viewport: the tile size is rounded to
`640 + 2^-14`, the loop tests fail at index 1 and one call is made. -/
theorem square_image_tiling_witness :
    loop_test ((window_director 640 640)._width / 2) (640 + 1 / 16384) 1 = false ∧
    render_image_tiles (window_director 640 640) ⟨0, 39, 39⟩ 0 5 =
      some [tile_at (window_director 640 640) 0 (640 + 1 / 16384) (640 + 1 / 16384) 0 0
        false false false false] :=
  (square_image_tiling (window_director 640 640) ⟨0, 39, 39⟩ 0 5 (640 + 1 / 16384)
    tile_size_640_39.symm (by decide) (by decide) rfl rfl (by decide) (by decide) rfl
    (by decide)).2.1 (Or.inr (by norm_num [window_director]))

/-! ## Coverage of the viewport -/

/-- C8 at a failing input: a 641 x 481 image in a 641 x 481 viewport, VR off. The
only rectangle passed to `render_texture` is `[-1/2, 1281/2] x [-1/2, 961/2]`:
its centre is `(320, 240)`, not the viewport centre `(641/2, 481/2)`, and the
viewport corner `(641, 481)` lies in no drawn rectangle. Every value computed on
the way is a binary32 number, so no rounding takes place. -/
theorem tiling_odd_viewport_uncovered :
    render_image_tiles (window_director 641 481) ⟨0, 641, 481⟩ 0 10 =
      some [⟨-1 / 2, -1 / 2, 1281 / 2, 961 / 2, false, false⟩] ∧
    ((-1 / 2 : ℚ) + 1281 / 2) / 2 = 320 ∧ ((-1 / 2 : ℚ) + 961 / 2) / 2 = 240 ∧
    (∀ c ∈ [(⟨-1 / 2, -1 / 2, 1281 / 2, 961 / 2, false, false⟩ : TextureCall)],
      ¬ covers c 641 481) := by
  have e1 : f32 641 = 641 := f32_natCast 641 (by norm_num)
  have e2 : f32 481 = 481 := f32_natCast 481 (by norm_num)
  have e3 : f32 320 = 320 := f32_natCast 320 (by norm_num)
  have e4 : f32 240 = 240 := f32_natCast 240 (by norm_num)
  have e5 : f32 (641 / 2) = 641 / 2 := f32_natCast_half 641 (by norm_num)
  have e6 : f32 (481 / 2) = 481 / 2 := f32_natCast_half 481 (by norm_num)
  have e7 : f32 (1281 / 2) = 1281 / 2 := f32_natCast_half 1281 (by norm_num)
  have e8 : f32 (961 / 2) = 961 / 2 := f32_natCast_half 961 (by norm_num)
  have e9 : f32 (-(1 / 2)) = -(1 / 2) := by
    have := f32_neg_natCast_half 1 (by norm_num)
    simpa using this
  have e10 : f32 (-321) = -321 := f32_neg_natCast 321 (by norm_num)
  have e11 : f32 (-241) = -241 := f32_neg_natCast 241 (by norm_num)
  have hs : image_scale (window_director 641 481) ⟨0, 641, 481⟩ = 1 := by
    norm_num [image_scale, window_director, e1, e2, f32_one]
  refine ⟨?_, by norm_num, by norm_num, ?_⟩
  · rw [render_image_tiles_of_tests (window_director 641 481) ⟨0, 641, 481⟩ 0 10 1 1 641 481
      (by norm_num [hs, e1]) (by norm_num [hs, e2])
      (by
        intro m hm
        have : m = 0 := by omega
        subst this
        norm_num [loop_test, window_director, f32_zero, e1, e3, e5, e7])
      (by norm_num [loop_test, window_director, f32_one, e1, e3, e5, e9, e10])
      (by
        intro m hm
        have : m = 0 := by omega
        subst this
        norm_num [loop_test, window_director, f32_zero, e2, e4, e6, e8])
      (by norm_num [loop_test, window_director, f32_one, e2, e4, e6, e9, e11])
      (by norm_num) (by norm_num)]
    norm_num [List.range', tile_body, off3d, window_director, f32_zero, e3, e4, e5, e6, e7, e8,
      e9]
  · intro c hc
    simp at hc
    subst hc
    simp [covers]
    norm_num

/-! ## The tiling loops: where they start and that they stop -/

/-- A finished loop stopped at some index within the fuel: the test failed there,
and at every index before it the test held and the body finished. -/
theorem for_loop_inv {α : Type} (test : Nat → Bool) (body : Nat → Option (List α)) :
    ∀ fuel k ts, for_loop test body fuel k = some ts →
      ∃ n, k ≤ n ∧ n - k < fuel ∧ test n = false ∧
        ∀ m, k ≤ m → m < n → test m = true ∧ (body m).isSome = true := by
  intro fuel
  induction fuel with
  | zero =>
    intro k ts h
    simp [for_loop] at h
  | succ fuel ih =>
    intro k ts h
    rw [for_loop] at h
    by_cases ht : test k = true
    · rw [if_pos ht] at h
      rcases hb : body k with _ | out
      · simp [hb] at h
      · rcases hrec : for_loop test body fuel (k + 1) with _ | rest
        · simp [hb, hrec] at h
        · obtain ⟨n, hn1, hn2, hn3, hn4⟩ := ih (k + 1) rest hrec
          refine ⟨n, by omega, by omega, hn3, ?_⟩
          intro m hm1 hm2
          rcases Nat.eq_or_lt_of_le hm1 with h5 | h5
          · subst h5
            exact ⟨ht, by simp [hb]⟩
          · exact hn4 m h5 hm2
    · refine ⟨k, Nat.le_refl _, by omega, by simpa using ht, ?_⟩
      intro m hm1 hm2
      omega

/-- The scale factor is not negative. -/
theorem image_scale_nonneg {C : Type} (dir : Director C) (image : Image) :
    0 ≤ image_scale dir image := by
  have h1 : (0 : ℚ) ≤ f32 (f32 (dir._height : ℚ) / f32 (image.height : ℚ)) :=
    f32_nonneg _ (div_nonneg (f32_nonneg _ (Nat.cast_nonneg _)) (f32_nonneg _ (Nat.cast_nonneg _)))
  have h2 : (0 : ℚ) ≤ f32 (f32 (dir._width : ℚ) / f32 (image.width : ℚ)) :=
    f32_nonneg _ (div_nonneg (f32_nonneg _ (Nat.cast_nonneg _)) (f32_nonneg _ (Nat.cast_nonneg _)))
  unfold image_scale
  simp only
  split
  · exact f32_nonneg _ (mul_nonneg (le_min h1 h2) (by norm_num))
  · exact le_min h1 h2

/-- For positive sides the scale factor is positive. -/
theorem image_scale_pos {C : Type} (dir : Director C) (image : Image)
    (hW : 0 < dir._width) (hH : 0 < dir._height) (hw : 0 < image.width)
    (hh : 0 < image.height) : 0 < image_scale dir image := by
  have c1 : (0 : ℚ) < dir._width := by exact_mod_cast hW
  have c2 : (0 : ℚ) < dir._height := by exact_mod_cast hH
  have c3 : (0 : ℚ) < image.width := by exact_mod_cast hw
  have c4 : (0 : ℚ) < image.height := by exact_mod_cast hh
  have h1 : (0 : ℚ) < f32 (f32 (dir._height : ℚ) / f32 (image.height : ℚ)) :=
    f32_pos _ (div_pos (f32_pos _ c2) (f32_pos _ c4))
  have h2 : (0 : ℚ) < f32 (f32 (dir._width : ℚ) / f32 (image.width : ℚ)) :=
    f32_pos _ (div_pos (f32_pos _ c1) (f32_pos _ c3))
  unfold image_scale
  simp only
  split
  · exact f32_pos _ (mul_pos (lt_min h1 h2) (by norm_num))
  · exact lt_min h1 h2

/-- The loop test holds at index 0 for a tile size that is not negative: the
`(0, 0)` pair is always visited. -/
theorem loop_test_zero (half : Nat) (size : ℚ) (hsize : 0 ≤ size) :
    loop_test half size 0 = true := by
  unfold loop_test
  rw [decide_eq_true_iff, f32_nonneg_iff]
  simp only [Nat.cast_zero, f32_zero, zero_mul, sub_zero]
  exact add_nonneg (f32_nonneg _ (f32_nonneg _ (Nat.cast_nonneg _)))
    (f32_nonneg _ (by linarith))

/-- For a positive tile size the loop test fails at some index. -/
theorem loop_test_fails (half : Nat) (size : ℚ) (hsize : 0 < size) :
    ∃ n, loop_test half size n = false := by
  obtain ⟨n, hn⟩ := exists_nat_gt ((8 * ((half : ℚ) + size)) / size)
  refine ⟨n, ?_⟩
  rw [div_lt_iff₀ hsize] at hn
  have hh : (0 : ℚ) ≤ half := Nat.cast_nonneg _
  have hn0 : (0 : ℚ) ≤ n := Nat.cast_nonneg _
  have e1 := f32_err (n : ℚ)
  rw [abs_of_nonneg hn0, abs_le] at e1
  have hk : (n : ℚ) / 2 ≤ f32 (n : ℚ) := by linarith [e1.1]
  have hp : (n : ℚ) / 2 * size ≤ f32 (n : ℚ) * size :=
    mul_le_mul_of_nonneg_right hk (le_of_lt hsize)
  have hp0 : 0 < f32 (n : ℚ) * size := by nlinarith
  have e2 := f32_err (f32 (n : ℚ) * size)
  rw [abs_of_pos hp0, abs_le] at e2
  have e3 := f32_err (half : ℚ)
  rw [abs_of_nonneg hh, abs_le] at e3
  have hd : f32 (half : ℚ) - f32 (f32 (n : ℚ) * size) < -(2 * size) := by
    nlinarith [e2.1, e3.2]
  have e4 := f32_err (f32 (half : ℚ) - f32 (f32 (n : ℚ) * size))
  have habs : |f32 (half : ℚ) - f32 (f32 (n : ℚ) * size)|
      = -(f32 (half : ℚ) - f32 (f32 (n : ℚ) * size)) := abs_of_neg (by linarith)
  rw [habs, abs_le] at e4
  have e5 := f32_err (size / 2)
  have habs2 : |size / 2| = size / 2 := abs_of_pos (by linarith)
  rw [habs2, abs_le] at e5
  unfold loop_test
  rw [decide_eq_false_iff_not, f32_nonneg_iff]
  linarith [e4.2, e5.2]

/-- `render_image` finishes: for a viewport and an image with positive sides both
loops stop, so every large enough fuel gives the list of calls. -/
theorem render_image_tiles_isSome {C : Type} (dir : Director C) (image : Image)
    (multiplier : ℚ) (hW : 0 < dir._width) (hH : 0 < dir._height) (hw : 0 < image.width)
    (hh : 0 < image.height) :
    ∃ fuel0, ∀ fuel, fuel0 ≤ fuel → (render_image_tiles dir image multiplier fuel).isSome = true := by
  have hs := image_scale_pos dir image hW hH hw hh
  have hx : (0 : ℚ) < f32 (f32 (image.width : ℚ) * image_scale dir image) :=
    f32_pos _ (mul_pos (f32_pos _ (by exact_mod_cast hw)) hs)
  have hy : (0 : ℚ) < f32 (f32 (image.height : ℚ) * image_scale dir image) :=
    f32_pos _ (mul_pos (f32_pos _ (by exact_mod_cast hh)) hs)
  obtain ⟨ni, hni⟩ := loop_test_fails (dir._width / 2) _ hx
  obtain ⟨nj, hnj⟩ := loop_test_fails (dir._height / 2) _ hy
  refine ⟨max ni nj + 1, ?_⟩
  intro fuel hfuel
  unfold render_image_tiles tile_loop_i
  simp only
  apply for_loop_isSome _ _ ni hni _ fuel 0 (Nat.zero_le _)
  · have := Nat.le_max_left ni nj
    omega
  · intro m _
    unfold tile_loop_j
    apply for_loop_isSome _ _ nj hnj _ fuel 0 (Nat.zero_le _)
    · have := Nat.le_max_right ni nj
      omega
    · intro m1 _
      rfl

/-- The number of calls of a row of loop bodies whose lengths are `c` at index 0 and
`2 * c` at every other index. -/
theorem flatMap_length_mirrors {α : Type} (f : Nat → List α) (c : Nat)
    (hf : ∀ j, (f j).length = c * (if j = 0 then 1 else 2)) :
    ∀ n, 0 < n → ((List.range n).flatMap f).length = c * (2 * n - 1) := by
  intro n hn
  induction n with
  | zero => omega
  | succ n ih =>
    rw [List.range_succ, List.flatMap_append, List.length_append]
    rcases Nat.eq_zero_or_pos n with h0 | hpos
    · subst h0
      simp [hf]
    · rw [ih hpos]
      have hne : n ≠ 0 := by omega
      simp only [List.flatMap_cons, List.flatMap_nil, List.append_nil, hf, if_neg hne]
      have : 2 * (n + 1) - 1 = (2 * n - 1) + 2 := by omega
      rw [this]
      ring

/-! ## Mirrors and flips -/

theorem vertices_drawn_append (a b : List GLCall) :
    vertices_drawn (a ++ b) = vertices_drawn a + vertices_drawn b := by
  induction a with
  | nil => simp [vertices_drawn]
  | cons c cs ih =>
    cases c <;> simp [vertices_drawn, ih]
    omega

/-- Every call of `render_texture` submits six vertices. -/
theorem vertices_drawn_tiles {C : Type} (dir : Director C) (tiles : List TextureCall) :
    vertices_drawn ((tiles.map (render_texture dir)).flatten) = 6 * tiles.length := by
  induction tiles with
  | nil => simp [vertices_drawn]
  | cons c cs ih =>
    rw [List.map_cons, List.flatten_cons, vertices_drawn_append, ih]
    simp [render_texture, vertices_drawn]
    omega

/-- The flips of a loop body, by the parity of the indices. -/
theorem tile_body_odd {C : Type} (dir : Director C) (offx3d x y : ℚ) (i j : Nat) :
    tile_body dir offx3d x y i j =
      [tile_at dir offx3d x y i j false false (decide (i % 2 = 1)) (decide (j % 2 = 1))]
      ++ (if i ≠ 0 then
            [tile_at dir offx3d x y i j true false (decide (i % 2 = 1)) (decide (j % 2 = 1))]
          else [])
      ++ (if j ≠ 0 then
            [tile_at dir offx3d x y i j false true (decide (i % 2 = 1)) (decide (j % 2 = 1))]
          else [])
      ++ (if i ≠ 0 ∧ j ≠ 0 then
            [tile_at dir offx3d x y i j true true (decide (i % 2 = 1)) (decide (j % 2 = 1))]
          else []) := by
  have hi : (i % 2 != 0) = decide (i % 2 = 1) := by
    rcases Nat.mod_two_eq_zero_or_one i with h | h <;> simp [h]
  have hj : (j % 2 != 0) = decide (j % 2 = 1) := by
    rcases Nat.mod_two_eq_zero_or_one j with h | h <;> simp [h]
  rw [tile_body_eq, hi, hj]

theorem tile_body_length {C : Type} (dir : Director C) (offx3d x y : ℚ) (i j : Nat) :
    (tile_body dir offx3d x y i j).length
      = (if i = 0 then 1 else 2) * (if j = 0 then 1 else 2) := by
  rw [tile_body_eq]
  by_cases h1 : i = 0 <;> by_cases h2 : j = 0 <;> simp [h1, h2]

theorem tile_body_flips {C : Type} (dir : Director C) (offx3d x y : ℚ) (i j : Nat)
    (c : TextureCall) (hc : c ∈ tile_body dir offx3d x y i j) :
    c.flip_h = decide (i % 2 = 1) ∧ c.flip_v = decide (j % 2 = 1) := by
  rw [tile_body_odd] at hc
  simp only [List.mem_append, List.mem_singleton] at hc
  rcases hc with ((hc | hc) | hc) | hc
  · subst hc
    exact ⟨rfl, rfl⟩
  · split at hc
    · simp only [List.mem_singleton] at hc
      subst hc
      exact ⟨rfl, rfl⟩
    · simp at hc
  · split at hc
    · simp only [List.mem_singleton] at hc
      subst hc
      exact ⟨rfl, rfl⟩
    · simp at hc
  · split at hc
    · simp only [List.mem_singleton] at hc
      subst hc
      exact ⟨rfl, rfl⟩
    · simp at hc

/-- The calls of `render_image` are those of the loop bodies at the pairs `(i, j)`
below the first indices `ni`, `nj` at which the loop tests fail, row by row; both
indices are positive, and the number of calls is `(2 ni - 1) (2 nj - 1)`. -/
theorem render_image_tiles_rows {C : Type} (dir : Director C) (image : Image) (multiplier : ℚ)
    (fuel : Nat) (tiles : List TextureCall) (o x y : ℚ)
    (ho : o = (off3d dir multiplier false).1)
    (hx : x = f32 (f32 (image.width : ℚ) * image_scale dir image))
    (hy : y = f32 (f32 (image.height : ℚ) * image_scale dir image))
    (h : render_image_tiles dir image multiplier fuel = some tiles) :
    ∃ ni nj : Nat, 0 < ni ∧ 0 < nj ∧
      (∀ i, i < ni → loop_test (dir._width / 2) x i = true) ∧
      loop_test (dir._width / 2) x ni = false ∧
      (∀ j, j < nj → loop_test (dir._height / 2) y j = true) ∧
      loop_test (dir._height / 2) y nj = false ∧
      tiles = (List.range ni).flatMap (fun i =>
        (List.range nj).flatMap (fun j => tile_body dir o x y i j)) ∧
      tiles.length = (2 * ni - 1) * (2 * nj - 1) := by
  have hs := image_scale_nonneg dir image
  have hx0 : 0 ≤ x := by
    rw [hx]
    exact f32_nonneg _ (mul_nonneg (f32_nonneg _ (Nat.cast_nonneg _)) hs)
  have hy0 : 0 ≤ y := by
    rw [hy]
    exact f32_nonneg _ (mul_nonneg (f32_nonneg _ (Nat.cast_nonneg _)) hs)
  have h1 : for_loop (loop_test (dir._width / 2) x)
      (fun i => tile_loop_j dir o x y i fuel) fuel 0 = some tiles := by
    rw [← h, ho, hx, hy]
    rfl
  obtain ⟨ni, -, hni1, hni2, hni3⟩ := for_loop_inv _ _ fuel 0 tiles h1
  have hni0 : 0 < ni := by
    rcases Nat.eq_zero_or_pos ni with h0 | h0
    · rw [h0, loop_test_zero _ x hx0] at hni2
      simp at hni2
    · exact h0
  obtain ⟨row, hrow⟩ := Option.isSome_iff_exists.mp (hni3 0 (Nat.le_refl _) hni0).2
  obtain ⟨nj, -, hnj1, hnj2, hnj3⟩ := for_loop_inv _ _ fuel 0 row hrow
  have hnj0 : 0 < nj := by
    rcases Nat.eq_zero_or_pos nj with h0 | h0
    · rw [h0, loop_test_zero _ y hy0] at hnj2
      simp at hnj2
    · exact h0
  have hall := render_image_tiles_of_tests dir image multiplier fuel ni nj x y hx.symm hy.symm
    (fun m hm => (hni3 m (Nat.zero_le _) hm).1) hni2
    (fun m hm => (hnj3 m (Nat.zero_le _) hm).1) hnj2 (by omega) (by omega)
  rw [h, ← ho, ← List.range_eq_range', ← List.range_eq_range'] at hall
  have htiles := Option.some.inj hall
  refine ⟨ni, nj, hni0, hnj0, fun i hi => (hni3 i (Nat.zero_le _) hi).1, hni2,
    fun j hj => (hnj3 j (Nat.zero_le _) hj).1, hnj2, htiles, ?_⟩
  rw [htiles, flatMap_length_mirrors _ (2 * nj - 1) _ ni hni0, Nat.mul_comm]
  intro i
  rw [flatMap_length_mirrors _ (if i = 0 then 1 else 2) _ nj hnj0]
  · by_cases hi : i = 0 <;> simp [hi]
    ring
  · intro j
    exact tile_body_length dir o x y i j

/-- The calls of `render_image`: a set-up that draws nothing, the calls of
`render_texture` one after the other, and a tear-down that draws nothing; six
vertices are drawn for every call of `render_texture`. -/
theorem render_image_calls {C : Type} (dir : Director C) (image : Image)
    (alpha multiplier zoom : ℚ) (fuel : Nat) (tiles : List TextureCall)
    (h : render_image_tiles dir image multiplier fuel = some tiles) :
    ∃ calls pre post, render_image dir image alpha multiplier zoom fuel = some calls ∧
      calls = pre ++ (tiles.map (render_texture dir)).flatten ++ post ∧
      vertices_drawn pre = 0 ∧ vertices_drawn post = 0 ∧
      vertices_drawn calls = 6 * tiles.length := by
  unfold render_image
  rw [h]
  refine ⟨_, _, _, rfl, rfl, ?_, ?_, ?_⟩
  · simp [vertices_drawn]
  · simp [vertices_drawn]
  · rw [vertices_drawn_append, vertices_drawn_append, vertices_drawn_tiles]
    simp [vertices_drawn]

/-- A 128 x 512 image in a 512 x 512 viewport, VR off: the scale is 1, the outer
loop visits `i = 0, 1, 2` and the inner loop `j = 0, 1`, and fifteen calls are made. -/
theorem tiles_512_128 :
    (0 : ℚ) = (off3d (window_director 512 512) 0 false).1 ∧
    (128 : ℚ) = f32 (f32 (((⟨0, 128, 512⟩ : Image).width : ℕ) : ℚ)
      * image_scale (window_director 512 512) ⟨0, 128, 512⟩) ∧
    (512 : ℚ) = f32 (f32 (((⟨0, 128, 512⟩ : Image).height : ℕ) : ℚ)
      * image_scale (window_director 512 512) ⟨0, 128, 512⟩) ∧
    render_image_tiles (window_director 512 512) ⟨0, 128, 512⟩ 0 10 =
      some [⟨192, 0, 320, 512, false, false⟩,
            ⟨192, -512, 320, 0, false, true⟩, ⟨192, 512, 320, 1024, false, true⟩,
            ⟨64, 0, 192, 512, true, false⟩, ⟨320, 0, 448, 512, true, false⟩,
            ⟨64, -512, 192, 0, true, true⟩, ⟨320, -512, 448, 0, true, true⟩,
            ⟨64, 512, 192, 1024, true, true⟩, ⟨320, 512, 448, 1024, true, true⟩,
            ⟨-64, 0, 64, 512, false, false⟩, ⟨448, 0, 576, 512, false, false⟩,
            ⟨-64, -512, 64, 0, false, true⟩, ⟨448, -512, 576, 0, false, true⟩,
            ⟨-64, 512, 64, 1024, false, true⟩, ⟨448, 512, 576, 1024, false, true⟩] := by
  have p2 : f32 2 = 2 := f32_natCast 2 (by norm_num)
  have p3 : f32 3 = 3 := f32_natCast 3 (by norm_num)
  have p4 : f32 4 = 4 := f32_natCast 4 (by norm_num)
  have p64 : f32 64 = 64 := f32_natCast 64 (by norm_num)
  have p128 : f32 128 = 128 := f32_natCast 128 (by norm_num)
  have p192 : f32 192 = 192 := f32_natCast 192 (by norm_num)
  have p256 : f32 256 = 256 := f32_natCast 256 (by norm_num)
  have p320 : f32 320 = 320 := f32_natCast 320 (by norm_num)
  have p384 : f32 384 = 384 := f32_natCast 384 (by norm_num)
  have p448 : f32 448 = 448 := f32_natCast 448 (by norm_num)
  have p512 : f32 512 = 512 := f32_natCast 512 (by norm_num)
  have p576 : f32 576 = 576 := f32_natCast 576 (by norm_num)
  have p1024 : f32 1024 = 1024 := f32_natCast 1024 (by norm_num)
  have n64 : f32 (-64) = -64 := f32_neg_natCast 64 (by norm_num)
  have n128 : f32 (-128) = -128 := f32_neg_natCast 128 (by norm_num)
  have n256 : f32 (-256) = -256 := f32_neg_natCast 256 (by norm_num)
  have n512 : f32 (-512) = -512 := f32_neg_natCast 512 (by norm_num)
  have n768 : f32 (-768) = -768 := f32_neg_natCast 768 (by norm_num)
  have hs : image_scale (window_director 512 512) ⟨0, 128, 512⟩ = 1 := by
    norm_num [image_scale, window_director, f32_one, p4, p128, p512]
  have hx : f32 (f32 (((⟨0, 128, 512⟩ : Image).width : ℕ) : ℚ)
      * image_scale (window_director 512 512) ⟨0, 128, 512⟩) = 128 := by
    norm_num [hs, p128]
  have hy : f32 (f32 (((⟨0, 128, 512⟩ : Image).height : ℕ) : ℚ)
      * image_scale (window_director 512 512) ⟨0, 128, 512⟩) = 512 := by
    norm_num [hs, p512]
  refine ⟨by simp [off3d, window_director], hx.symm, hy.symm, ?_⟩
  rw [render_image_tiles_of_tests (window_director 512 512) ⟨0, 128, 512⟩ 0 10 3 2 128 512
    hx hy
    (by
      intro m hm
      interval_cases m
      · norm_num [loop_test, window_director, f32_zero, p64, p256, p320]
      · norm_num [loop_test, window_director, f32_one, p64, p128, p192, p256]
      · norm_num [loop_test, window_director, f32_zero, p2, p64, p256])
    (by norm_num [loop_test, window_director, p3, p64, p256, p384, n64, n128])
    (by
      intro m hm
      interval_cases m
      · norm_num [loop_test, window_director, f32_zero, p256, p512]
      · norm_num [loop_test, window_director, f32_zero, f32_one, p256, p512, n256])
    (by norm_num [loop_test, window_director, p2, p256, p512, p1024, n512, n768])
    (by norm_num) (by norm_num)]
  norm_num [List.range', tile_body, off3d, window_director, f32_zero, f32_one, p2, p64, p128,
    p192, p256, p320, p448, p512, p576, p1024, n64, n512]

/-- C9: mirrors and flips. When `render_image` finishes, with tile sizes `x`, `y` and
parallax offset `o` as it computes them: the calls of `render_texture` it made are
exactly those of the loop bodies at the pairs `(i, j)` with `i < ni`, `j < nj`, row
by row, where `ni`, `nj` are the first indices at which the loop tests fail; the
pair `(0, 0)` is always visited, and `(2 ni - 1) (2 nj - 1)` calls are made. For
every pair the body draws the base tile `i` tile sizes left of and `j` above the
centred rectangle, then the horizontal mirror (`i` to the right) iff `i != 0`, the
vertical mirror (`j` below) iff `j != 0`, and the diagonal mirror iff both are
nonzero: 1, 2, 2 or 4 calls. Every one of them has `flip_h = (i odd)` and
`flip_v = (j odd)`, `render_texture` sends these as the `flip` uniform and then
draws six vertices, and the flip on an axis changes with every increment of that
axis's index. The calls of `render_image` are a set-up, these calls of
`render_texture` in order, and a tear-down; `6` vertices are drawn per tile. For a
viewport and an image with positive sides `render_image` does finish, given enough
fuel. -/
theorem tile_mirrors_and_flips {C : Type} (dir : Director C) (image : Image)
    (alpha multiplier zoom : ℚ) (fuel : Nat) (tiles : List TextureCall) (o x y : ℚ)
    (ho : o = (off3d dir multiplier false).1)
    (hx : x = f32 (f32 (image.width : ℚ) * image_scale dir image))
    (hy : y = f32 (f32 (image.height : ℚ) * image_scale dir image))
    (h : render_image_tiles dir image multiplier fuel = some tiles) :
    (∃ ni nj : Nat, 0 < ni ∧ 0 < nj ∧
      (∀ i, i < ni → loop_test (dir._width / 2) x i = true) ∧
      loop_test (dir._width / 2) x ni = false ∧
      (∀ j, j < nj → loop_test (dir._height / 2) y j = true) ∧
      loop_test (dir._height / 2) y nj = false ∧
      tiles = (List.range ni).flatMap (fun i =>
        (List.range nj).flatMap (fun j => tile_body dir o x y i j)) ∧
      tiles.length = (2 * ni - 1) * (2 * nj - 1)) ∧
    (∀ i j : Nat,
      tile_body dir o x y i j =
        [tile_at dir o x y i j false false (decide (i % 2 = 1)) (decide (j % 2 = 1))]
        ++ (if i ≠ 0 then
              [tile_at dir o x y i j true false (decide (i % 2 = 1)) (decide (j % 2 = 1))]
            else [])
        ++ (if j ≠ 0 then
              [tile_at dir o x y i j false true (decide (i % 2 = 1)) (decide (j % 2 = 1))]
            else [])
        ++ (if i ≠ 0 ∧ j ≠ 0 then
              [tile_at dir o x y i j true true (decide (i % 2 = 1)) (decide (j % 2 = 1))]
            else []) ∧
      (tile_body dir o x y i j).length =
        (if i = 0 then 1 else 2) * (if j = 0 then 1 else 2) ∧
      (∀ c ∈ tile_body dir o x y i j,
        c.flip_h = decide (i % 2 = 1) ∧ c.flip_v = decide (j % 2 = 1) ∧
        render_texture dir c =
          [ GLCall.glUniform2f GLProgram._image_program Uniform.min_coord
              (f32 (c.l / f32 dir._width)) (f32 (c.t / f32 dir._height)),
            GLCall.glUniform2f GLProgram._image_program Uniform.max_coord
              (f32 (c.r / f32 dir._width)) (f32 (c.b / f32 dir._height)),
            GLCall.glUniform2f GLProgram._image_program Uniform.flip
              (if i % 2 = 1 then 1 else 0) (if j % 2 = 1 then 1 else 0),
            GLCall.glDrawArrays GLMode.GL_TRIANGLES 0 6 ]) ∧
      (∀ c ∈ tile_body dir o x y i j, ∀ c1 ∈ tile_body dir o x y (i + 1) j,
        c1.flip_h = !c.flip_h ∧ c1.flip_v = c.flip_v) ∧
      (∀ c ∈ tile_body dir o x y i j, ∀ c1 ∈ tile_body dir o x y i (j + 1),
        c1.flip_h = c.flip_h ∧ c1.flip_v = !c.flip_v)) ∧
    (∃ calls pre post, render_image dir image alpha multiplier zoom fuel = some calls ∧
      calls = pre ++ (tiles.map (render_texture dir)).flatten ++ post ∧
      vertices_drawn pre = 0 ∧ vertices_drawn post = 0 ∧
      vertices_drawn calls = 6 * tiles.length) ∧
    (0 < dir._width → 0 < dir._height → 0 < image.width → 0 < image.height →
      ∃ fuel0, ∀ fuel1, fuel0 ≤ fuel1 →
        (render_image_tiles dir image multiplier fuel1).isSome = true) := by
  have hpar : ∀ i : Nat, decide ((i + 1) % 2 = 1) = !decide (i % 2 = 1) := by
    intro i
    rcases Nat.mod_two_eq_zero_or_one i with h | h
    · have : (i + 1) % 2 = 1 := by omega
      simp [h, this]
    · have : (i + 1) % 2 = 0 := by omega
      simp [h, this]
  refine ⟨render_image_tiles_rows dir image multiplier fuel tiles o x y ho hx hy h, ?_,
    render_image_calls dir image alpha multiplier zoom fuel tiles h,
    render_image_tiles_isSome dir image multiplier⟩
  intro i j
  refine ⟨tile_body_odd dir o x y i j, tile_body_length dir o x y i j, ?_, ?_, ?_⟩
  · intro c hc
    obtain ⟨h1, h2⟩ := tile_body_flips dir o x y i j c hc
    refine ⟨h1, h2, ?_⟩
    simp [render_texture, h1, h2]
  · intro c hc c1 hc1
    obtain ⟨h1, h2⟩ := tile_body_flips dir o x y i j c hc
    obtain ⟨h3, h4⟩ := tile_body_flips dir o x y (i + 1) j c1 hc1
    rw [h1, h2, h3, h4, hpar]
    exact ⟨rfl, rfl⟩
  · intro c hc c1 hc1
    obtain ⟨h1, h2⟩ := tile_body_flips dir o x y i j c hc
    obtain ⟨h3, h4⟩ := tile_body_flips dir o x y i (j + 1) c1 hc1
    rw [h1, h2, h3, h4, hpar]
    exact ⟨rfl, rfl⟩

/-- A 128 x 512 image in a 512 x 512 viewport: fifteen calls, from the bodies at
`i = 0, 1, 2` and `j = 0, 1`, with mirrors and both flips. -/
theorem tile_mirrors_and_flips_witness :
    render_image_tiles (window_director 512 512) ⟨0, 128, 512⟩ 0 10 =
      some [⟨192, 0, 320, 512, false, false⟩,
            ⟨192, -512, 320, 0, false, true⟩, ⟨192, 512, 320, 1024, false, true⟩,
            ⟨64, 0, 192, 512, true, false⟩, ⟨320, 0, 448, 512, true, false⟩,
            ⟨64, -512, 192, 0, true, true⟩, ⟨320, -512, 448, 0, true, true⟩,
            ⟨64, 512, 192, 1024, true, true⟩, ⟨320, 512, 448, 1024, true, true⟩,
            ⟨-64, 0, 64, 512, false, false⟩, ⟨448, 0, 576, 512, false, false⟩,
            ⟨-64, -512, 64, 0, false, true⟩, ⟨448, -512, 576, 0, false, true⟩,
            ⟨-64, 512, 64, 1024, false, true⟩, ⟨448, 512, 576, 1024, false, true⟩] ∧
    ∃ ni nj : Nat, 0 < ni ∧ 0 < nj ∧
      (∀ i, i < ni → loop_test ((window_director 512 512)._width / 2) 128 i = true) ∧
      loop_test ((window_director 512 512)._width / 2) 128 ni = false ∧
      (∀ j, j < nj → loop_test ((window_director 512 512)._height / 2) 512 j = true) ∧
      loop_test ((window_director 512 512)._height / 2) 512 nj = false ∧
      [(⟨192, 0, 320, 512, false, false⟩ : TextureCall),
            ⟨192, -512, 320, 0, false, true⟩, ⟨192, 512, 320, 1024, false, true⟩,
            ⟨64, 0, 192, 512, true, false⟩, ⟨320, 0, 448, 512, true, false⟩,
            ⟨64, -512, 192, 0, true, true⟩, ⟨320, -512, 448, 0, true, true⟩,
            ⟨64, 512, 192, 1024, true, true⟩, ⟨320, 512, 448, 1024, true, true⟩,
            ⟨-64, 0, 64, 512, false, false⟩, ⟨448, 0, 576, 512, false, false⟩,
            ⟨-64, -512, 64, 0, false, true⟩, ⟨448, -512, 576, 0, false, true⟩,
            ⟨-64, 512, 64, 1024, false, true⟩, ⟨448, 512, 576, 1024, false, true⟩]
        = (List.range ni).flatMap (fun i =>
            (List.range nj).flatMap (fun j => tile_body (window_director 512 512) 0 128 512 i j)) ∧
      [(⟨192, 0, 320, 512, false, false⟩ : TextureCall),
            ⟨192, -512, 320, 0, false, true⟩, ⟨192, 512, 320, 1024, false, true⟩,
            ⟨64, 0, 192, 512, true, false⟩, ⟨320, 0, 448, 512, true, false⟩,
            ⟨64, -512, 192, 0, true, true⟩, ⟨320, -512, 448, 0, true, true⟩,
            ⟨64, 512, 192, 1024, true, true⟩, ⟨320, 512, 448, 1024, true, true⟩,
            ⟨-64, 0, 64, 512, false, false⟩, ⟨448, 0, 576, 512, false, false⟩,
            ⟨-64, -512, 64, 0, false, true⟩, ⟨448, -512, 576, 0, false, true⟩,
            ⟨-64, 512, 64, 1024, false, true⟩, ⟨448, 512, 576, 1024, false, true⟩].length
        = (2 * ni - 1) * (2 * nj - 1) :=
  ⟨tiles_512_128.2.2.2,
    (tile_mirrors_and_flips (window_director 512 512) ⟨0, 128, 512⟩ 1 0 1 10 _ 0 128 512
      tiles_512_128.1 tiles_512_128.2.1 tiles_512_128.2.2.1 tiles_512_128.2.2.2).1⟩

/-! ## Text -/

/-- C10: `render_text` with the empty string returns at once: it makes no OpenGL call
(no state change, no draw), so it submits zero vertices, and it leaves the static
vertex buffer as it found it; this for every director, font, colour, offset and
scale. A non-empty string always ends in a `glDrawArrays` call. -/
theorem render_text_empty {C : Type} (dir : Director C) (static_vertices : List Vertex)
    (font : Font) (colour : Colour) (offset : ℚ × ℚ) (scale : ℚ) :
    (render_text dir static_vertices [] font colour offset scale).calls = [] ∧
    vertices_drawn (render_text dir static_vertices [] font colour offset scale).calls = 0 ∧
    (render_text dir static_vertices [] font colour offset scale).vertices = static_vertices ∧
    (∀ (c : Nat) (cs : List Nat),
      (render_text dir static_vertices (c :: cs) font colour offset scale).calls.getLast? =
        some (GLCall.glDrawArrays GLMode.GL_QUADS 0
          (render_text dir static_vertices (c :: cs) font colour offset scale).vertices.length)) := by
  refine ⟨rfl, rfl, rfl, ?_⟩
  intro c cs
  simp [render_text]

/-! ## Text layout: control characters and the number of vertices -/

theorem layout_step_space {C : Type} (dir : Director C) (font : Font) (hspace vspace : ℚ)
    (s : Layout) :
    layout_step dir font hspace vspace s 32 =
      { s with x := s.x + font.getKerning s.prev 32 + hspace, prev := 32 } := by
  simp [layout_step]

theorem layout_step_tab {C : Type} (dir : Director C) (font : Font) (hspace vspace : ℚ)
    (s : Layout) :
    layout_step dir font hspace vspace s 9 =
      { s with x := s.x + font.getKerning s.prev 9 + hspace * 4, prev := 9 } := by
  simp [layout_step]

theorem layout_step_newline {C : Type} (dir : Director C) (font : Font) (hspace vspace : ℚ)
    (s : Layout) :
    layout_step dir font hspace vspace s 10 =
      { s with x := 0, y := s.y + vspace, prev := 10 } := by
  simp [layout_step]

theorem layout_step_vertical_tab {C : Type} (dir : Director C) (font : Font)
    (hspace vspace : ℚ) (s : Layout) :
    layout_step dir font hspace vspace s 11 =
      { s with x := s.x + font.getKerning s.prev 11, y := s.y + vspace * 4, prev := 11 } := by
  simp [layout_step]

theorem draws_quad_iff (c : Nat) :
    draws_quad c = true ↔ c ≠ 32 ∧ c ≠ 9 ∧ c ≠ 10 ∧ c ≠ 11 := by
  simp [draws_quad, and_assoc]

/-- Every character other than the four of the `switch` appends one quad, built from
its glyph, and moves the pen right by the kerning and the glyph's advance. -/
theorem layout_step_glyph {C : Type} (dir : Director C) (font : Font) (hspace vspace : ℚ)
    (s : Layout) (c : Nat) (hc : draws_quad c = true) :
    layout_step dir font hspace vspace s c =
      { s with
        x := s.x + font.getKerning s.prev c + (font.getGlyph c).advance,
        prev := c,
        vertices := s.vertices ++
          [⟨(s.x + font.getKerning s.prev c + (font.getGlyph c).bounds_left) / dir._width,
            (s.y + (font.getGlyph c).bounds_top) / dir._height,
            ((font.getGlyph c).textureRect_left : ℚ) / font.texture_size_x,
            ((font.getGlyph c).textureRect_top : ℚ) / font.texture_size_y⟩,
           ⟨(s.x + font.getKerning s.prev c + (font.getGlyph c).bounds_left
              + (font.getGlyph c).bounds_width) / dir._width,
            (s.y + (font.getGlyph c).bounds_top) / dir._height,
            (((font.getGlyph c).textureRect_left + (font.getGlyph c).textureRect_width : Int) : ℚ)
              / font.texture_size_x,
            ((font.getGlyph c).textureRect_top : ℚ) / font.texture_size_y⟩,
           ⟨(s.x + font.getKerning s.prev c + (font.getGlyph c).bounds_left
              + (font.getGlyph c).bounds_width) / dir._width,
            (s.y + (font.getGlyph c).bounds_top + (font.getGlyph c).bounds_height) / dir._height,
            (((font.getGlyph c).textureRect_left + (font.getGlyph c).textureRect_width : Int) : ℚ)
              / font.texture_size_x,
            (((font.getGlyph c).textureRect_top + (font.getGlyph c).textureRect_height : Int) : ℚ)
              / font.texture_size_y⟩,
           ⟨(s.x + font.getKerning s.prev c + (font.getGlyph c).bounds_left) / dir._width,
            (s.y + (font.getGlyph c).bounds_top + (font.getGlyph c).bounds_height) / dir._height,
            ((font.getGlyph c).textureRect_left : ℚ) / font.texture_size_x,
            (((font.getGlyph c).textureRect_top + (font.getGlyph c).textureRect_height : Int) : ℚ)
              / font.texture_size_y⟩],
        xmin := min s.xmin
          (min ((s.x + font.getKerning s.prev c + (font.getGlyph c).bounds_left) / dir._width)
            ((s.x + font.getKerning s.prev c + (font.getGlyph c).bounds_left
              + (font.getGlyph c).bounds_width) / dir._width)),
        xmax := max s.xmax
          (max ((s.x + font.getKerning s.prev c + (font.getGlyph c).bounds_left) / dir._width)
            ((s.x + font.getKerning s.prev c + (font.getGlyph c).bounds_left
              + (font.getGlyph c).bounds_width) / dir._width)),
        ymin := min s.ymin
          (min ((s.y + (font.getGlyph c).bounds_top) / dir._height)
            ((s.y + (font.getGlyph c).bounds_top + (font.getGlyph c).bounds_height)
              / dir._height)),
        ymax := max s.ymax
          (max ((s.y + (font.getGlyph c).bounds_top) / dir._height)
            ((s.y + (font.getGlyph c).bounds_top + (font.getGlyph c).bounds_height)
              / dir._height)) } := by
  obtain ⟨h1, h2, h3, h4⟩ := (draws_quad_iff c).mp hc
  simp [layout_step, h1, h2, h3, h4]

/-- A step of the layout loop adds four vertices for a character that draws a quad and
none for the four others. -/
theorem layout_step_length {C : Type} (dir : Director C) (font : Font) (hspace vspace : ℚ)
    (s : Layout) (c : Nat) :
    (layout_step dir font hspace vspace s c).vertices.length =
      s.vertices.length + (if draws_quad c = true then 4 else 0) := by
  by_cases hc : draws_quad c = true
  · rw [layout_step_glyph dir font hspace vspace s c hc]
    simp [hc]
  · have h : c = 32 ∨ c = 9 ∨ c = 10 ∨ c = 11 := by
      by_contra hn
      push_neg at hn
      exact hc ((draws_quad_iff c).mpr hn)
    rcases h with rfl | rfl | rfl | rfl
    · rw [layout_step_space]
      simp [draws_quad]
    · rw [layout_step_tab]
      simp [draws_quad]
    · rw [layout_step_newline]
      simp [draws_quad]
    · rw [layout_step_vertical_tab]
      simp [draws_quad]

theorem foldl_layout_step_length {C : Type} (dir : Director C) (font : Font)
    (hspace vspace : ℚ) (text : List Nat) (s : Layout) :
    (text.foldl (layout_step dir font hspace vspace) s).vertices.length =
      s.vertices.length + 4 * (text.filter draws_quad).length := by
  induction text generalizing s with
  | nil => simp
  | cons c cs ih =>
    rw [List.foldl_cons, ih, layout_step_length]
    by_cases hc : draws_quad c = true
    · simp [hc]
      omega
    · simp [hc]

theorem layout_text_length {C : Type} (dir : Director C) (font : Font) (text : List Nat) :
    (layout_text dir font text).vertices.length = 4 * (text.filter draws_quad).length := by
  unfold layout_text
  rw [foldl_layout_step_length]
  simp [layout_start]

/-! ## Text layout: the bounding box -/

theorem tracks_min_push (f : Vertex → ℚ) (vs new : List Vertex) (m a b : ℚ)
    (h : tracks_min f vs m) (hnew : ∀ v ∈ new, f v = a ∨ f v = b)
    (ha : ∃ v ∈ new, f v = a) (hb : ∃ v ∈ new, f v = b) :
    tracks_min f (vs ++ new) (min m (min a b)) := by
  obtain ⟨h1, h2, h3⟩ := h
  refine ⟨le_trans (min_le_left _ _) h1, ?_, ?_⟩
  · intro v hv
    rcases List.mem_append.mp hv with hv | hv
    · exact le_trans (min_le_left _ _) (h2 v hv)
    · rcases hnew v hv with e | e
      · rw [e]
        exact le_trans (min_le_right _ _) (min_le_left _ _)
      · rw [e]
        exact le_trans (min_le_right _ _) (min_le_right _ _)
  · rcases min_choice m (min a b) with e | e
    · rw [e]
      rcases h3 with h3 | ⟨v, hv, hfv⟩
      · exact Or.inl h3
      · exact Or.inr ⟨v, List.mem_append_left _ hv, hfv⟩
    · rw [e]
      right
      rcases min_choice a b with e2 | e2
      · rw [e2]
        obtain ⟨v, hv, hfv⟩ := ha
        exact ⟨v, List.mem_append_right _ hv, hfv⟩
      · rw [e2]
        obtain ⟨v, hv, hfv⟩ := hb
        exact ⟨v, List.mem_append_right _ hv, hfv⟩

theorem tracks_max_push (f : Vertex → ℚ) (vs new : List Vertex) (m a b : ℚ)
    (h : tracks_max f vs m) (hnew : ∀ v ∈ new, f v = a ∨ f v = b)
    (ha : ∃ v ∈ new, f v = a) (hb : ∃ v ∈ new, f v = b) :
    tracks_max f (vs ++ new) (max m (max a b)) := by
  obtain ⟨h1, h2, h3⟩ := h
  refine ⟨le_trans h1 (le_max_left _ _), ?_, ?_⟩
  · intro v hv
    rcases List.mem_append.mp hv with hv | hv
    · exact le_trans (h2 v hv) (le_max_left _ _)
    · rcases hnew v hv with e | e
      · rw [e]
        exact le_trans (le_max_left _ _) (le_max_right _ _)
      · rw [e]
        exact le_trans (le_max_right _ _) (le_max_right _ _)
  · rcases max_choice m (max a b) with e | e
    · rw [e]
      rcases h3 with h3 | ⟨v, hv, hfv⟩
      · exact Or.inl h3
      · exact Or.inr ⟨v, List.mem_append_left _ hv, hfv⟩
    · rw [e]
      right
      rcases max_choice a b with e2 | e2
      · rw [e2]
        obtain ⟨v, hv, hfv⟩ := ha
        exact ⟨v, List.mem_append_right _ hv, hfv⟩
      · rw [e2]
        obtain ⟨v, hv, hfv⟩ := hb
        exact ⟨v, List.mem_append_right _ hv, hfv⟩

theorem layout_bounds_start : layout_bounds layout_start := by
  simp [layout_bounds, tracks_min, tracks_max, layout_start]

/-- One iteration of the layout loop keeps the running extrema in step with the
vertices. -/
theorem layout_step_bounds {C : Type} (dir : Director C) (font : Font) (hspace vspace : ℚ)
    (s : Layout) (c : Nat) (h : layout_bounds s) :
    layout_bounds (layout_step dir font hspace vspace s c) := by
  by_cases hc : draws_quad c = true
  · rw [layout_step_glyph dir font hspace vspace s c hc]
    obtain ⟨h1, h2, h3, h4⟩ := h
    refine ⟨?_, ?_, ?_, ?_⟩
    · exact tracks_min_push _ _ _ _ _ _ h1 (by simp) (by simp) (by simp)
    · exact tracks_max_push _ _ _ _ _ _ h2 (by simp) (by simp) (by simp)
    · exact tracks_min_push _ _ _ _ _ _ h3 (by simp) (by simp) (by simp)
    · exact tracks_max_push _ _ _ _ _ _ h4 (by simp) (by simp) (by simp)
  · have h5 : c = 32 ∨ c = 9 ∨ c = 10 ∨ c = 11 := by
      by_contra hn
      push_neg at hn
      exact hc ((draws_quad_iff c).mpr hn)
    rcases h5 with rfl | rfl | rfl | rfl
    · rw [layout_step_space]
      exact h
    · rw [layout_step_tab]
      exact h
    · rw [layout_step_newline]
      exact h
    · rw [layout_step_vertical_tab]
      exact h

theorem foldl_layout_step_bounds {C : Type} (dir : Director C) (font : Font)
    (hspace vspace : ℚ) (text : List Nat) (s : Layout) (h : layout_bounds s) :
    layout_bounds (text.foldl (layout_step dir font hspace vspace) s) := by
  induction text generalizing s with
  | nil => exact h
  | cons c cs ih =>
    rw [List.foldl_cons]
    exact ih _ (layout_step_bounds dir font hspace vspace s c h)

/-- After the layout loop the running extrema track the emitted vertices. -/
theorem layout_text_bounds {C : Type} (dir : Director C) (font : Font) (text : List Nat) :
    layout_bounds (layout_text dir font text) :=
  foldl_layout_step_bounds dir font _ _ text layout_start layout_bounds_start

theorem is_min_of_tracks (f : Vertex → ℚ) (vs : List Vertex) (m : ℚ)
    (h : tracks_min f vs m) (hsome : ∃ v ∈ vs, f v ≤ 256) : is_min f vs m := by
  obtain ⟨h1, h2, h3⟩ := h
  refine ⟨?_, h2⟩
  rcases h3 with h3 | h3
  · obtain ⟨v, hv, hle⟩ := hsome
    refine ⟨v, hv, ?_⟩
    have := h2 v hv
    rw [h3] at this ⊢
    exact le_antisymm hle this
  · exact h3

theorem is_max_of_tracks (f : Vertex → ℚ) (vs : List Vertex) (m : ℚ)
    (h : tracks_max f vs m) (hsome : ∃ v ∈ vs, -256 ≤ f v) : is_max f vs m := by
  obtain ⟨h1, h2, h3⟩ := h
  refine ⟨?_, h2⟩
  rcases h3 with h3 | h3
  · obtain ⟨v, hv, hle⟩ := hsome
    refine ⟨v, hv, ?_⟩
    have := h2 v hv
    rw [h3] at this ⊢
    exact le_antisymm this hle
  · exact h3

theorem is_min_map_shift (f : Vertex → ℚ) (g : Vertex → Vertex) (vs : List Vertex) (m c : ℚ)
    (hg : ∀ v, f (g v) = f v - c) (h : is_min f vs m) : is_min f (vs.map g) (m - c) := by
  obtain ⟨⟨v, hv, hfv⟩, hall⟩ := h
  refine ⟨⟨g v, List.mem_map_of_mem g hv, by rw [hg, hfv]⟩, ?_⟩
  intro w hw
  obtain ⟨u, hu, rfl⟩ := List.mem_map.mp hw
  rw [hg]
  linarith [hall u hu]

theorem is_max_map_shift (f : Vertex → ℚ) (g : Vertex → Vertex) (vs : List Vertex) (m c : ℚ)
    (hg : ∀ v, f (g v) = f v - c) (h : is_max f vs m) : is_max f (vs.map g) (m - c) := by
  obtain ⟨⟨v, hv, hfv⟩, hall⟩ := h
  refine ⟨⟨g v, List.mem_map_of_mem g hv, by rw [hg, hfv]⟩, ?_⟩
  intro w hw
  obtain ⟨u, hu, rfl⟩ := List.mem_map.mp hw
  rw [hg]
  linarith [hall u hu]

/-- A text with a character that draws a quad leaves at least one vertex. -/
theorem layout_text_ne_nil {C : Type} (dir : Director C) (font : Font) (text : List Nat)
    (hprint : ∃ c ∈ text, draws_quad c = true) : (layout_text dir font text).vertices ≠ [] := by
  obtain ⟨c, hc, hq⟩ := hprint
  have hlen := layout_text_length dir font text
  have hmem : c ∈ text.filter draws_quad := List.mem_filter.mpr ⟨hc, hq⟩
  have hpos : 0 < (text.filter draws_quad).length := List.length_pos_of_mem hmem
  intro hnil
  rw [hnil, List.length_nil] at hlen
  omega

/-- Along one axis: if the vertices, moved by the middle of the running extrema, have
opposite least and greatest coordinates, then the starting values 256 and -256
did not cut the running extrema short. -/
theorem tracks_of_centred (f : Vertex → ℚ) (g : Vertex → Vertex) (vs : List Vertex)
    (lo hi c h : ℚ) (hlo : tracks_min f vs lo) (hhi : tracks_max f vs hi)
    (hc : c = lo + (hi - lo) / 2) (hg : ∀ v, f (g v) = f v - c)
    (h1 : is_min f (vs.map g) (-h)) (h2 : is_max f (vs.map g) h) :
    (∃ v ∈ vs, f v ≤ 256) ∧ (∃ v ∈ vs, -256 ≤ f v) := by
  obtain ⟨⟨v1, hv1, e1⟩, hmin⟩ := h1
  obtain ⟨⟨v2, hv2, e2⟩, hmax⟩ := h2
  obtain ⟨v, hv, rfl⟩ := List.mem_map.mp hv1
  obtain ⟨u, hu, rfl⟩ := List.mem_map.mp hv2
  rw [hg] at e1 e2
  have hleast : ∀ w ∈ vs, f v ≤ f w := by
    intro w hw
    have := hmin (g w) (List.mem_map_of_mem g hw)
    rw [hg] at this
    linarith
  have hgreatest : ∀ w ∈ vs, f w ≤ f u := by
    intro w hw
    have := hmax (g w) (List.mem_map_of_mem g hw)
    rw [hg] at this
    linarith
  obtain ⟨a1, a2, a3⟩ := hlo
  obtain ⟨b1, b2, b3⟩ := hhi
  have hlv := a2 v hv
  have hhu := b2 u hu
  have hvu := hleast u hu
  constructor
  · refine ⟨v, hv, ?_⟩
    rcases a3 with a3 | ⟨w, hw, ew⟩
    · by_contra hcon
      push_neg at hcon
      rcases b3 with b3 | ⟨w, hw, ew⟩
      · linarith
      · have := hgreatest w hw
        linarith
    · have := hleast w hw
      linarith
  · refine ⟨u, hu, ?_⟩
    rcases b3 with b3 | ⟨w, hw, ew⟩
    · by_contra hcon
      push_neg at hcon
      rcases a3 with a3 | ⟨w, hw, ew⟩
      · linarith
      · have := hleast w hw
        linarith
    · have := hgreatest w hw
      linarith

theorem place_vertex_x {C : Type} (dir : Director C) (s : Layout) (v : Vertex) :
    (place_vertex dir s (0, 0) 1 v).x = v.x - (s.xmin + (s.xmax - s.xmin) / 2) := by
  simp [place_vertex]

theorem place_vertex_y {C : Type} (dir : Director C) (s : Layout) (v : Vertex) :
    (place_vertex dir s (0, 0) 1 v).y = v.y - (s.ymin + (s.ymax - s.ymin) / 2) := by
  simp [place_vertex]

theorem render_text_vertices {C : Type} (dir : Director C) (static_vertices : List Vertex)
    (text : List Nat) (font : Font) (colour : Colour) (offset : ℚ × ℚ) (scale : ℚ)
    (hne : text ≠ []) :
    (render_text dir static_vertices text font colour offset scale).vertices =
      (layout_text dir font text).vertices.map
        (place_vertex dir (layout_text dir font text) offset scale) := by
  cases text with
  | nil => exact absurd rfl hne
  | cons c cs => simp [render_text]

/-- C11, as stated, fails when every emitted corner lies more than 256 viewport widths
right of the pen origin: in a 100 x 100 viewport the letter A, whose glyph starts
30000 pixels right of the pen and is 1000 pixels wide, has its corners at x = 300
and x = 310; the running minimum stays at its starting value 256, and after the
translation (scale 1, offset 0) the corners are at x = 17 and x = 27, so the
bounding box is not centred. -/
theorem text_centring_counterexample :
    (render_text (window_director 100 100) [] [65] far_font ⟨255, 255, 255, 255⟩ (0, 0) 1).vertices
      = [⟨17, -5, 0, 0⟩, ⟨27, -5, 1 / 16, 0⟩, ⟨27, 5, 1 / 16, 5 / 64⟩, ⟨17, 5, 0, 5 / 64⟩] ∧
    ¬ centred_at_origin
      (render_text (window_director 100 100) [] [65] far_font ⟨255, 255, 255, 255⟩ (0, 0)
        1).vertices := by
  have hv : (render_text (window_director 100 100) [] [65] far_font ⟨255, 255, 255, 255⟩
      (0, 0) 1).vertices
      = [⟨17, -5, 0, 0⟩, ⟨27, -5, 1 / 16, 0⟩, ⟨27, 5, 1 / 16, 5 / 64⟩, ⟨17, 5, 0, 5 / 64⟩] := by
    simp [render_text, layout_text, layout_step, layout_start, place_vertex, far_font,
      example_font, window_director]
    norm_num
  refine ⟨hv, ?_⟩
  rw [hv]
  rintro ⟨hx, hy, ⟨⟨v, hmem, e⟩, -⟩, ⟨-, hmax⟩, -, -⟩
  have h27 := hmax ⟨27, -5, 1 / 16, 0⟩ (by simp)
  simp only at h27
  simp only [List.mem_cons, List.mem_singleton, List.not_mem_nil, or_false] at hmem
  rcases hmem with rfl | rfl | rfl | rfl <;> simp only at e <;> linarith

/-- C11 (amended): for a viewport with positive sides and a text with at least one
character that draws a quad, `render_text` emits vertices, and after the
translation, with scale 1 and offset (0,0), their bounding box is centred
exactly at the origin (least x = -(greatest x), least y = -(greatest y)) if and
only if, before the translation, some corner has x at most 256 and some corner
has x at least -256, and the same for y (coordinates in viewport widths and
heights from the pen origin): the running extrema start at 256 and -256. In
particular it is centred whenever every corner lies within 256 viewport sizes of
the pen origin on both axes. -/
theorem text_bounding_box_centred {C : Type} (dir : Director C) (static_vertices : List Vertex)
    (text : List Nat) (font : Font) (colour : Colour)
    (_hW : 0 < dir._width) (_hH : 0 < dir._height)
    (hprint : ∃ c ∈ text, draws_quad c = true) :
    (layout_text dir font text).vertices ≠ [] ∧
    (centred_at_origin (render_text dir static_vertices text font colour (0, 0) 1).vertices ↔
      (∃ v ∈ (layout_text dir font text).vertices, v.x ≤ 256) ∧
      (∃ v ∈ (layout_text dir font text).vertices, -256 ≤ v.x) ∧
      (∃ v ∈ (layout_text dir font text).vertices, v.y ≤ 256) ∧
      (∃ v ∈ (layout_text dir font text).vertices, -256 ≤ v.y)) ∧
    ((∀ v ∈ (layout_text dir font text).vertices,
        -256 ≤ v.x ∧ v.x ≤ 256 ∧ -256 ≤ v.y ∧ v.y ≤ 256) →
      centred_at_origin (render_text dir static_vertices text font colour (0, 0) 1).vertices) := by
  have hne : text ≠ [] := by
    obtain ⟨c, hc, -⟩ := hprint
    exact List.ne_nil_of_mem hc
  have hnil := layout_text_ne_nil dir font text hprint
  obtain ⟨bx1, bx2, by1, by2⟩ := layout_text_bounds dir font text
  have hiff : centred_at_origin
      (render_text dir static_vertices text font colour (0, 0) 1).vertices ↔
      (∃ v ∈ (layout_text dir font text).vertices, v.x ≤ 256) ∧
      (∃ v ∈ (layout_text dir font text).vertices, -256 ≤ v.x) ∧
      (∃ v ∈ (layout_text dir font text).vertices, v.y ≤ 256) ∧
      (∃ v ∈ (layout_text dir font text).vertices, -256 ≤ v.y) := by
    rw [render_text_vertices dir static_vertices text font colour (0, 0) 1 hne]
    constructor
    · rintro ⟨hx, hy, m1, m2, m3, m4⟩
      obtain ⟨c1, c2⟩ := tracks_of_centred Vertex.x _ _ _ _ _ hx bx1 bx2 rfl
        (place_vertex_x dir (layout_text dir font text)) m1 m2
      obtain ⟨c3, c4⟩ := tracks_of_centred Vertex.y _ _ _ _ _ hy by1 by2 rfl
        (place_vertex_y dir (layout_text dir font text)) m3 m4
      exact ⟨c1, c2, c3, c4⟩
    · rintro ⟨c1, c2, c3, c4⟩
      have m1 := is_min_map_shift Vertex.x _ _ _ _ (place_vertex_x dir (layout_text dir font text))
        (is_min_of_tracks _ _ _ bx1 c1)
      have m2 := is_max_map_shift Vertex.x _ _ _ _ (place_vertex_x dir (layout_text dir font text))
        (is_max_of_tracks _ _ _ bx2 c2)
      have m3 := is_min_map_shift Vertex.y _ _ _ _ (place_vertex_y dir (layout_text dir font text))
        (is_min_of_tracks _ _ _ by1 c3)
      have m4 := is_max_map_shift Vertex.y _ _ _ _ (place_vertex_y dir (layout_text dir font text))
        (is_max_of_tracks _ _ _ by2 c4)
      refine ⟨_, _, ?_, m2, ?_, m4⟩
      · have e : (layout_text dir font text).xmin
            - ((layout_text dir font text).xmin
              + ((layout_text dir font text).xmax - (layout_text dir font text).xmin) / 2)
            = -((layout_text dir font text).xmax
              - ((layout_text dir font text).xmin
                + ((layout_text dir font text).xmax - (layout_text dir font text).xmin) / 2)) := by
          ring
        rw [← e]
        exact m1
      · have e : (layout_text dir font text).ymin
            - ((layout_text dir font text).ymin
              + ((layout_text dir font text).ymax - (layout_text dir font text).ymin) / 2)
            = -((layout_text dir font text).ymax
              - ((layout_text dir font text).ymin
                + ((layout_text dir font text).ymax - (layout_text dir font text).ymin) / 2)) := by
          ring
        rw [← e]
        exact m3
  refine ⟨hnil, hiff, ?_⟩
  intro hall
  obtain ⟨v, hv⟩ := List.exists_mem_of_ne_nil _ hnil
  obtain ⟨h1, h2, h3, h4⟩ := hall v hv
  exact hiff.mpr ⟨⟨v, hv, h2⟩, ⟨v, hv, h1⟩, ⟨v, hv, h4⟩, ⟨v, hv, h3⟩⟩

/-- The amended C11 for the letter A in the example font, in a 100 x 100 viewport: the
four corners lie within the bounds, so the translated box is centred. -/
theorem text_bounding_box_centred_witness :
    centred_at_origin
      (render_text (window_director 100 100) [] [65] example_font ⟨255, 255, 255, 255⟩ (0, 0)
        1).vertices :=
  (text_bounding_box_centred (window_director 100 100) [] [65] example_font
    ⟨255, 255, 255, 255⟩ (by decide) (by decide) ⟨65, by simp, by decide⟩).2.2
    (by
      simp [layout_text, layout_step, layout_start, example_font, window_director]
      norm_num)

/-! ## Text layout: the pen and the control characters -/

/-- C12, as stated, fails when the font kerns the previous character against a space:
with the pair (full stop, space) kerned by -1 and a space advance of 9, the pen
stands at 9 after the full stop and at 17 after the space: the space moved it by
8, not by one space advance. -/
theorem space_advance_counterexample :
    (kerning_font.getGlyph 32).advance = 9 ∧
    (layout_text (window_director 100 100) kerning_font [46]).x = 9 ∧
    (layout_text (window_director 100 100) kerning_font [46, 32]).x = 17 := by
  refine ⟨rfl, ?_, ?_⟩
  · simp [layout_text, layout_step, layout_start, kerning_font, example_font]
  · simp [layout_text, layout_step, layout_start, kerning_font, example_font]
    norm_num

/-- C12 (amended): one iteration of the layout loop of `render_text`, from the state
`s`, with `hspace` the advance of the space glyph and `vspace` the line spacing.
The kerning of the character against the previous one is added to the horizontal
pen first, for every character. Then space and tab emit no vertices and advance
the horizontal pen by one and by four space advances; newline emits no vertices,
sets the horizontal pen to 0 (dropping the kerning) and advances the vertical pen
by one line spacing; vertical tab emits no vertices and advances the vertical pen
by four line spacings, the horizontal pen keeping only the kerning; every other
character emits exactly one quad of four vertices and advances the horizontal pen
by its glyph's advance. So the layout of a text holds, and `render_text` submits,
4 times as many vertices as the text has characters other than those four. -/
theorem text_control_characters {C : Type} (dir : Director C) (font : Font) (s : Layout) :
    (layout_step dir font (font.getGlyph 32).advance font.getLineSpacing s 32 =
      { s with x := s.x + font.getKerning s.prev 32 + (font.getGlyph 32).advance,
               prev := 32 }) ∧
    (layout_step dir font (font.getGlyph 32).advance font.getLineSpacing s 9 =
      { s with x := s.x + font.getKerning s.prev 9 + (font.getGlyph 32).advance * 4,
               prev := 9 }) ∧
    (layout_step dir font (font.getGlyph 32).advance font.getLineSpacing s 10 =
      { s with x := 0, y := s.y + font.getLineSpacing, prev := 10 }) ∧
    (layout_step dir font (font.getGlyph 32).advance font.getLineSpacing s 11 =
      { s with x := s.x + font.getKerning s.prev 11, y := s.y + font.getLineSpacing * 4,
               prev := 11 }) ∧
    (∀ c, draws_quad c = true →
      (layout_step dir font (font.getGlyph 32).advance font.getLineSpacing s c).vertices.length
        = s.vertices.length + 4 ∧
      List.take s.vertices.length
        (layout_step dir font (font.getGlyph 32).advance font.getLineSpacing s c).vertices
        = s.vertices ∧
      (layout_step dir font (font.getGlyph 32).advance font.getLineSpacing s c).x
        = s.x + font.getKerning s.prev c + (font.getGlyph c).advance ∧
      (layout_step dir font (font.getGlyph 32).advance font.getLineSpacing s c).y = s.y) ∧
    (∀ text : List Nat,
      layout_text dir font text =
        text.foldl (layout_step dir font (font.getGlyph 32).advance font.getLineSpacing)
          layout_start ∧
      (layout_text dir font text).vertices.length = 4 * (text.filter draws_quad).length ∧
      ∀ (static_vertices : List Vertex) (colour : Colour) (offset : ℚ × ℚ) (scale : ℚ),
        vertices_drawn (render_text dir static_vertices text font colour offset scale).calls
          = 4 * (text.filter draws_quad).length) := by
  refine ⟨layout_step_space _ _ _ _ _, layout_step_tab _ _ _ _ _, layout_step_newline _ _ _ _ _,
    layout_step_vertical_tab _ _ _ _ _, ?_, ?_⟩
  · intro c hc
    rw [layout_step_glyph dir font _ _ s c hc]
    simp
  · intro text
    refine ⟨rfl, layout_text_length dir font text, ?_⟩
    intro static_vertices colour offset scale
    cases text with
    | nil => simp [render_text, vertices_drawn]
    | cons c cs =>
      simp only [render_text, List.isEmpty_cons, Bool.false_eq_true, if_false, vertices_drawn,
        List.length_map]
      rw [layout_text_length]
      simp

/-- The amended C12 on the example font: the letter A after the start state adds four
vertices; the text "A B" submits eight. -/
theorem text_control_characters_witness :
    ((layout_step (window_director 100 100) example_font (example_font.getGlyph 32).advance
        example_font.getLineSpacing layout_start 65).vertices.length
        = layout_start.vertices.length + 4 ∧
      List.take layout_start.vertices.length
        (layout_step (window_director 100 100) example_font (example_font.getGlyph 32).advance
          example_font.getLineSpacing layout_start 65).vertices
        = layout_start.vertices ∧
      (layout_step (window_director 100 100) example_font (example_font.getGlyph 32).advance
        example_font.getLineSpacing layout_start 65).x
        = layout_start.x + example_font.getKerning layout_start.prev 65
          + (example_font.getGlyph 65).advance ∧
      (layout_step (window_director 100 100) example_font (example_font.getGlyph 32).advance
        example_font.getLineSpacing layout_start 65).y = layout_start.y) ∧
    vertices_drawn (render_text (window_director 100 100) [] [65, 32, 66] example_font
        ⟨255, 255, 255, 255⟩ (0, 0) 1).calls
      = 4 * ([65, 32, 66].filter draws_quad).length :=
  ⟨(text_control_characters (window_director 100 100) example_font layout_start).2.2.2.2.1
      65 (by decide),
   ((text_control_characters (window_director 100 100) example_font layout_start).2.2.2.2.2
      [65, 32, 66]).2.2 [] ⟨255, 255, 255, 255⟩ (0, 0) 1⟩

/-! ## The parallax offset -/

/-- C13: `off3d(multiplier, text)`. The vertical component is always 0. The horizontal
component is 0 whenever VR is not enabled or `multiplier` is 0. Otherwise, for the
left eye, it is `_width / (8 * multiplier)` times the depth factor of the system
configuration (the text depth when `text` is true, the image depth otherwise), and
the value for the right eye is the exact negation of the value for the left eye,
for the same arguments. -/
theorem off3d_spec {C : Type} (dir : Director C) (multiplier : ℚ) (text : Bool) :
    (off3d dir multiplier text).2 = 0 ∧
    ((dir.oculus_enabled = false ∨ multiplier = 0) → (off3d dir multiplier text).1 = 0) ∧
    (dir.oculus_enabled = true → multiplier ≠ 0 → dir.oculus_rendering_right = false →
      (off3d dir multiplier text).1 =
        (dir._width : ℚ) / (8 * multiplier) *
          (if text then dir._system.oculus_text_depth else dir._system.oculus_image_depth)) ∧
    (off3d { dir with oculus_rendering_right := true } multiplier text).1 =
      -(off3d { dir with oculus_rendering_right := false } multiplier text).1 := by
  refine ⟨rfl, ?_, ?_, ?_⟩
  · rintro (h | h)
    · simp [off3d, h]
    · simp [off3d, h]
  · intro h1 h2 h3
    simp [off3d, h1, h2, h3]
  · by_cases h1 : dir.oculus_enabled = true
    · by_cases h2 : multiplier = 0
      · simp [off3d, h2]
      · simp only [off3d, h1, h2, Bool.not_true, decide_False, Bool.or_self, Bool.false_eq_true,
          if_false, Bool.not_false, if_true]
        rw [div_neg]
        ring
    · simp only [Bool.not_eq_true] at h1
      simp [off3d, h1]

/-- The offset for a left-eye render at width 512, multiplier 4 and unit depth: 16. -/
theorem off3d_spec_witness :
    (off3d example_director 4 true).1 =
      ((example_director._width : ℚ) / (8 * 4) *
        (if true = true then example_director._system.oculus_text_depth
          else example_director._system.oculus_image_depth)) ∧
    (off3d example_director 0 true).1 = 0 :=
  ⟨(off3d_spec example_director 4 true).2.2.1 rfl (by norm_num) rfl,
   (off3d_spec example_director 0 true).2.1 (Or.inr rfl)⟩

end Trance
